import Mathlib

/-!
Shallow embedding of the `resource-model` repository core
(`src/ListManager.js` together with `src/lib/index-relationships.js`
and the facade `ItemManager.js`), plus reference-identity models for
the aliasing-sensitive parts, and theorems settling the frozen claims.

JavaScript records are modelled as association lists from field names
to primitive values; a missing field reads as `Val.undef`, mirroring
JavaScript `undefined`.  Index objects are association lists from key
values to either a single record (one-to-one use) or a list of records
(one-to-many use).  Mutating operations return `Except (String × Store)
Store`: on a thrown error the carried `Store` is the state at the
moment of the throw, so partial mutation before an exception is
observable, exactly as in the JavaScript original.
-/

namespace ResourceModel

/-- Primitive JavaScript values appearing in records: numbers, strings
and `undefined` (the result of reading an absent property). -/
inductive Val where
  | num : Int → Val
  | str : String → Val
  | undef : Val
deriving DecidableEq, Repr

/-- A record: an ordered association of field names to values
(JavaScript object with primitive-valued properties). -/
abbrev Rec := List (String × Val)

/-- Property read: value of the first binding of `f`, or `undef` when
the field is absent (JavaScript `r[f]`). -/
def getField (r : Rec) (f : String) : Val :=
  match r with
  | [] => .undef
  | (f1, v) :: rest => if f1 = f then v else getField rest f

/-- Whether the field is present at all (JavaScript `f in r`). -/
def recHasField (r : Rec) (f : String) : Bool :=
  match r with
  | [] => false
  | (f1, _) :: rest => if f1 = f then true else recHasField rest f

/-- Property write: replace the first binding of `f` in place, or
append a new binding (JavaScript `r[f] = v`). -/
def recSetField (r : Rec) (f : String) (v : Val) : Rec :=
  match r with
  | [] => [(f, v)]
  | (f1, v1) :: rest =>
    if f1 = f then (f, v) :: rest else (f1, v1) :: recSetField rest f v

/-- Association-object lookup (JavaScript `o[k]`, `undefined` = `none`). -/
def alookup {κ α : Type} [DecidableEq κ] (m : List (κ × α)) (k : κ) : Option α :=
  match m with
  | [] => none
  | (k1, v) :: rest => if k1 = k then some v else alookup rest k

/-- Association-object write (JavaScript `o[k] = v`): overwrite in
place if the key is present, else append. -/
def aset {κ α : Type} [DecidableEq κ] (m : List (κ × α)) (k : κ) (v : α) :
    List (κ × α) :=
  match m with
  | [] => [(k, v)]
  | (k1, v1) :: rest =>
    if k1 = k then (k, v) :: rest else (k1, v1) :: aset rest k v

/-- Association-object key deletion (JavaScript `delete o[k]`). -/
def adel {κ α : Type} [DecidableEq κ] (m : List (κ × α)) (k : κ) :
    List (κ × α) :=
  match m with
  | [] => []
  | (k1, v1) :: rest =>
    if k1 = k then adel rest k else (k1, v1) :: adel rest k

/-- Keys of an association object. -/
def akeys {κ α : Type} (m : List (κ × α)) : List κ := m.map Prod.fst

/-- JavaScript `Array.prototype.findIndex`: index of the first match,
`-1` when there is none. -/
def findIndexJS {α : Type} (l : List α) (p : α → Bool) : Int :=
  match l with
  | [] => -1
  | x :: rest =>
    if p x then 0
    else
      match findIndexJS rest p with
      | -1 => -1
      | n => n + 1

/-- Start position used by `Array.prototype.splice`: negative indexes
count from the end (clamped at 0), large indexes clamp to the length. -/
def spliceStart (len : Nat) (i : Int) : Nat :=
  if i < 0 then (len + i).toNat else min i.toNat len

/-- JavaScript `l.splice(i, 1)`: remove one element at the (clamped)
start position. -/
def spliceRemove1 {α : Type} (l : List α) (i : Int) : List α :=
  let s := spliceStart l.length i
  l.take s ++ l.drop (s + 1)

/-- JavaScript `l.splice(i, 1, x)`: replace one element at the
(clamped) start position. -/
def spliceReplace1 {α : Type} (l : List α) (i : Int) (x : α) : List α :=
  let s := spliceStart l.length i
  l.take s ++ [x] ++ l.drop (s + 1)

/-! ### The relationship constants (`src/lib/index-relationships.js`) -/

/-- `const ONE_TO_ONE = 0`. -/
def ONE_TO_ONE : Nat := 0

/-- `const ONE_TO_MANY = 2`. -/
def ONE_TO_MANY : Nat := 2

/-! ### Index structures -/

/-- Contents of an index object.  A one-to-one index maps a key value
to a single record; a one-to-many index maps a key value to a list of
records.  (In JavaScript both are plain objects; which shape an index
holds is determined by the relationship of the spec that owns it and
is established by the initial rebuild in `addIndex`.) -/
inductive IdxContent where
  | one : List (Val × Rec) → IdxContent
  | many : List (Val × List Rec) → IdxContent
deriving DecidableEq, Repr

/-- An entry of `#indexSpecs`: the user-supplied spec merged with the
`index` object created by `addIndex` (`indexSpec = { index, ...indexSpec }`). -/
structure IndexSpec where
  name : Option String
  indexField : String
  relationship : Nat
  index : IdxContent
deriving DecidableEq, Repr

/-- The `ListManager` state: `#items` (master list), `#keyField`,
`#indexSpecs`, and `#specIndex` (name → position of the spec in
`#indexSpecs`; positions stand for the shared spec-object references). -/
structure Store where
  items : List Rec
  keyField : String
  indexSpecs : List IndexSpec
  specIndex : List (String × Nat)
deriving DecidableEq, Repr

/-- The contents of `#idIndex` (the index object of the first,
implicitly created spec).  After construction the first spec always
exists and is one-to-one. -/
def idIndexContent (s : Store) : List (Val × Rec) :=
  match s.indexSpecs.head? with
  | some spec =>
    match spec.index with
    | .one m => m
    | .many _ => []
  | none => []

/-! ### Index-maintenance helpers (bottom of `ListManager.js`) -/

/-- `rebuildOneToOne`: truncate the index object, then
`items.reduce((newIdx, item) => { newIdx[item[indexField]] = item ... })`. -/
def rebuildOneToOne (items : List Rec) (indexField : String) :
    List (Val × Rec) :=
  items.foldl (fun m item => aset m (getField item indexField) item) []

/-- `addOneToMany`: `list = index[item[indexField]] || []`, push, store. -/
def addOneToMany (item : Rec) (indexField : String)
    (m : List (Val × List Rec)) : List (Val × List Rec) :=
  let v := getField item indexField
  let list := (alookup m v).getD []
  aset m v (list ++ [item])

/-- `rebuildOneToMany`: truncate, then group the items by index field. -/
def rebuildOneToMany (items : List Rec) (indexField : String) :
    List (Val × List Rec) :=
  items.foldl (fun m item => addOneToMany item indexField m) []

/-- `addOneToOne`: `index[item[indexField]] = item`. -/
def addOneToOne (item : Rec) (indexField : String)
    (m : List (Val × Rec)) : List (Val × Rec) :=
  aset m (getField item indexField) item

/-- `updateOneToOne`.  For a non-primary index the "orig" record is
fetched as `idIndex[item[indexField]]` — by the value of this index's
own field, not by the primary key; when that lookup is `undefined`,
reading `origItem[indexField]` throws a `TypeError`. -/
def updateOneToOne (item : Rec) (indexField : String) (isIdIndex : Bool)
    (idIdx : List (Val × Rec)) (m : List (Val × Rec)) :
    Except String (List (Val × Rec)) :=
  if isIdIndex then
    .ok (aset m (getField item indexField) item)
  else
    match alookup idIdx (getField item indexField) with
    | none => .error "TypeError: cannot read properties of undefined"
    | some origItem =>
      .ok (aset (adel m (getField origItem indexField))
            (getField item indexField) item)

/-- `deleteOneToOne`: `origItem = idIndex[item[indexField]]`, then
`delete index[origItem[indexField]]`. -/
def deleteOneToOne (item : Rec) (indexField : String)
    (idIdx : List (Val × Rec)) (m : List (Val × Rec)) :
    Except String (List (Val × Rec)) :=
  match alookup idIdx (getField item indexField) with
  | none => .error "TypeError: cannot read properties of undefined"
  | some origItem => .ok (adel m (getField origItem indexField))

/-- `getOrigData`: fetch the original record via
`idIndex[item[keyField]]`, its current bucket, and the position of the
record in that bucket (compared by key field).  An `undefined` orig
record or bucket throws when dereferenced. -/
def getOrigData (item : Rec) (keyField indexField : String)
    (idIdx : List (Val × Rec)) (m : List (Val × List Rec)) :
    Except String (Rec × List Rec × Int) :=
  match alookup idIdx (getField item keyField) with
  | none => .error "TypeError: cannot read properties of undefined"
  | some origItem =>
    match alookup m (getField origItem indexField) with
    | none => .error "TypeError: origList is undefined"
    | some origList =>
      .ok (origItem, origList,
        findIndexJS origList
          (fun i => getField i keyField == getField origItem keyField))

/-- `updateOneToMany`: same index value → splice-replace in the bucket;
changed value → splice out of the old bucket and `addOneToMany` into
the new one. -/
def updateOneToMany (item : Rec) (keyField indexField : String)
    (idIdx : List (Val × Rec)) (m : List (Val × List Rec)) :
    Except String (List (Val × List Rec)) := do
  let (origItem, origList, origListIndex) ←
    getOrigData item keyField indexField idIdx m
  if getField origItem indexField = getField item indexField then
    return aset m (getField origItem indexField)
      (spliceReplace1 origList origListIndex item)
  else
    let m1 := aset m (getField origItem indexField)
      (spliceRemove1 origList origListIndex)
    return addOneToMany item indexField m1

/-- `deleteOneToMany`: splice the record out of its current bucket;
when the bucket became empty, `delete index[item[indexField]]` — keyed
by the *argument's* field value. -/
def deleteOneToMany (item : Rec) (keyField indexField : String)
    (idIdx : List (Val × Rec)) (m : List (Val × List Rec)) :
    Except String (List (Val × List Rec)) := do
  let (origItem, origList, origListIndex) ←
    getOrigData item keyField indexField idIdx m
  let newList := spliceRemove1 origList origListIndex
  let m1 := aset m (getField origItem indexField) newList
  if newList.length = 0 then
    return adel m1 (getField item indexField)
  else
    return m1

/-! ### Routing (`routeByRelationship(s)`) -/

/-- Which item-level mutation is being routed. -/
inductive RouteOp where
  | add
  | update
  | delete
deriving DecidableEq, Repr

/-- `routeByRelationship` for one spec during an item mutation.
`isIdIndex` holds exactly when the routed spec is the first one (the
`#idIndex` object identity test `idIndex !== index`).  `idIdx` is the
current contents of the first spec's index object. -/
def routeSpec (op : RouteOp) (item : Rec) (keyField : String)
    (idIdx : IdxContent) (isIdIndex : Bool) (spec : IndexSpec) :
    Except String IdxContent :=
  if spec.relationship = ONE_TO_ONE then
    match spec.index with
    | .one m =>
      match op with
      | .add => .ok (.one (addOneToOne item spec.indexField m))
      | .update =>
        match idIdx with
        | .one idm =>
          (updateOneToOne item spec.indexField isIdIndex idm m).map .one
        | .many _ => .error "TypeError: id index has list values"
      | .delete =>
        match idIdx with
        | .one idm =>
          (deleteOneToOne item spec.indexField idm m).map .one
        | .many _ => .error "TypeError: id index has list values"
    | .many _ => .error "TypeError: index shape mismatch"
  else if spec.relationship = ONE_TO_MANY then
    match spec.index with
    | .many m =>
      match op with
      | .add => .ok (.many (addOneToMany item spec.indexField m))
      | .update =>
        match idIdx with
        | .one idm =>
          (updateOneToMany item keyField spec.indexField idm m).map .many
        | .many _ => .error "TypeError: id index has list values"
      | .delete =>
        match idIdx with
        | .one idm =>
          (deleteOneToMany item keyField spec.indexField idm m).map .many
        | .many _ => .error "TypeError: id index has list values"
    | .one _ => .error "TypeError: index shape mismatch"
  else
    .error "Unknown index relationship spec"

/-- `routeByRelationships` body: iterate over the given positions
(`[...indexSpecs].reverse()`), updating each spec's index object in
place; on a thrown error the partially updated spec list is kept. -/
def routeItemAux (op : RouteOp) (item : Rec) (keyField : String) :
    List IndexSpec → List Nat → Except (String × List IndexSpec) (List IndexSpec)
  | cur, [] => .ok cur
  | cur, pos :: rest =>
    match cur[pos]? with
    | none => routeItemAux op item keyField cur rest
    | some spec =>
      let idIdx := match cur[0]? with
        | some s0 => s0.index
        | none => .one []
      match routeSpec op item keyField idIdx (pos = 0) spec with
      | .error e => .error (e, cur)
      | .ok content =>
        routeItemAux op item keyField
          (cur.set pos { spec with index := content }) rest

/-- `routeByRelationships` for an item mutation: reverse registration
order, so the primary (first) index is processed last. -/
def routeItem (op : RouteOp) (item : Rec) (keyField : String)
    (specs : List IndexSpec) : Except (String × List IndexSpec) (List IndexSpec) :=
  routeItemAux op item keyField specs (List.range specs.length).reverse

/-- Recompute one spec's index contents from the master list
(`rebuildOneToOne` / `rebuildOneToMany` routed by relationship). -/
def rebuildContent (items : List Rec) (spec : IndexSpec) :
    Except String IdxContent :=
  if spec.relationship = ONE_TO_ONE then
    .ok (.one (rebuildOneToOne items spec.indexField))
  else if spec.relationship = ONE_TO_MANY then
    .ok (.many (rebuildOneToMany items spec.indexField))
  else
    .error "Unknown index relationship spec"

/-! ### The `ListManager` operations -/

/-- `rebuild` applied to the spec at a given position. -/
def rebuildAt (s : Store) (pos : Nat) : Except (String × Store) Store :=
  match s.indexSpecs[pos]? with
  | none => .error ("Could not find matching index.", s)
  | some spec =>
    match rebuildContent s.items spec with
    | .ok c =>
      .ok { s with indexSpecs := s.indexSpecs.set pos { spec with index := c } }
    | .error e => .error (e, s)

/-- `rebuild(name)`: resolve the named spec via `#specIndex`, then
rebuild it. -/
def rebuildByName (s : Store) (name : String) : Except (String × Store) Store :=
  match alookup s.specIndex name with
  | none => .error ("No such index found.", s)
  | some pos => rebuildAt s pos

/-- `rebuildAll` body over explicit positions, keeping partial state on
a throw. -/
def rebuildAllAux (items : List Rec) :
    List IndexSpec → List Nat → Except (String × List IndexSpec) (List IndexSpec)
  | cur, [] => .ok cur
  | cur, pos :: rest =>
    match cur[pos]? with
    | none => rebuildAllAux items cur rest
    | some spec =>
      match rebuildContent items spec with
      | .error e => .error (e, cur)
      | .ok c => rebuildAllAux items (cur.set pos { spec with index := c }) rest

/-- `rebuildAll()`: rebuild every index in reverse registration order. -/
def rebuildAll (s : Store) : Except (String × Store) Store :=
  match rebuildAllAux s.items s.indexSpecs (List.range s.indexSpecs.length).reverse with
  | .ok specs => .ok { s with indexSpecs := specs }
  | .error (e, specs) => .error (e, { s with indexSpecs := specs })

/-- `addIndex(indexSpec)`: register a fresh index object (empty), by
name when given, then run the initial rebuild.  Registration happens
before the rebuild, so a spec with an unknown relationship stays
registered even though `addIndex` throws. -/
def addIndex (s : Store) (name : Option String) (indexField : String)
    (relationship : Nat) : Except (String × Store) Store :=
  let spec : IndexSpec :=
    { name := name, indexField := indexField, relationship := relationship
      index := .one [] }
  let specs1 := s.indexSpecs ++ [spec]
  let specIndex1 :=
    match name with
    | some nm => aset s.specIndex nm s.indexSpecs.length
    | none => s.specIndex
  let s1 := { s with indexSpecs := specs1, specIndex := specIndex1 }
  rebuildAt s1 s.indexSpecs.length

/-- A store before its constructor body runs. -/
def emptyStore (items : List Rec) (keyField : String) : Store :=
  { items := items, keyField := keyField, indexSpecs := [], specIndex := [] }

/-- The `ListManager` constructor: keep the given list, set the key
field, and eagerly `addIndex` the implicit one-to-one `byId` index on
the key field.  That `addIndex` call cannot throw. -/
def construct (items : List Rec) (keyField : String) : Store :=
  match addIndex (emptyStore items keyField) (some "byId") keyField ONE_TO_ONE with
  | .ok s => s
  | .error (_, s) => s

/-- `getItem(id, { required })`.  Cloning is invisible at the value
level; `none` is JavaScript `undefined`. -/
def getItem (s : Store) (id : Val) (required : Bool) :
    Except String (Option Rec) :=
  match alookup (idIndexContent s) id with
  | none =>
    if required then .error "No such item found." else .ok none
  | some item => .ok (some item)

/-- Result of `getByIndex`: a single (possibly absent) record for
one-to-one indexes, a list for one-to-many indexes. -/
inductive GetByIndexResult where
  | single : Option Rec → GetByIndexResult
  | list : List Rec → GetByIndexResult
deriving DecidableEq, Repr

/-- `getByIndex({ indexName, key, required })` with the default clone
flags (`cloneAll = true`): resolve the spec by name, check `required`
against `value === undefined`, then branch on the relationship — the
one-to-many branch turns an `undefined` value into `[]`. -/
def getByIndex (s : Store) (indexName : String) (key : Val)
    (required : Bool) : Except String GetByIndexResult :=
  match alookup s.specIndex indexName with
  | none => .error "No such index found."
  | some pos =>
    match s.indexSpecs[pos]? with
    | none => .error "No such index found."
    | some spec =>
      match spec.index with
      | .one m =>
        match alookup m key with
        | none =>
          if required then .error "Did not find key in index."
          else if spec.relationship = ONE_TO_ONE then .ok (.single none)
          else .ok (.list [])
        | some v =>
          if spec.relationship = ONE_TO_ONE then .ok (.single (some v))
          else .error "TypeError: index shape mismatch"
      | .many m =>
        match alookup m key with
        | none =>
          if required then .error "Did not find key in index."
          else if spec.relationship = ONE_TO_ONE then .ok (.single none)
          else .ok (.list [])
        | some l =>
          if spec.relationship = ONE_TO_ONE then
            .error "TypeError: index shape mismatch"
          else .ok (.list l)

/-- `addItem(item)`: push onto the master list, then route the add
through every index in reverse registration order.  No uniqueness
check of any kind is performed. -/
def addItem (s : Store) (item : Rec) : Except (String × Store) Store :=
  let s1 := { s with items := s.items ++ [item] }
  match routeItem .add item s1.keyField s1.indexSpecs with
  | .ok specs => .ok { s1 with indexSpecs := specs }
  | .error (e, specs) => .error (e, { s1 with indexSpecs := specs })

/-- `updateItem(item)`: require an existing record with the same key
(`getItem(..., required)`), then `findIndex((i) => i.id === item.id)` —
the comparison field is the hard-coded string `id`, not `#keyField` —
splice-replace that slot, and route the update. -/
def updateItem (s : Store) (item : Rec) : Except (String × Store) Store :=
  match alookup (idIndexContent s) (getField item s.keyField) with
  | none => .error ("No such item found.", s)
  | some _ =>
    let itemIndex :=
      findIndexJS s.items (fun i => getField i "id" == getField item "id")
    let s1 := { s with items := spliceReplace1 s.items itemIndex item }
    match routeItem .update item s1.keyField s1.indexSpecs with
    | .ok specs => .ok { s1 with indexSpecs := specs }
    | .error (e, specs) => .error (e, { s1 with indexSpecs := specs })

/-- `deleteItem(item)`: require an existing record with the same key,
then inside a `try` block splice the slot found by the hard-coded
`i.id === item.id` comparison out of the master list and route the
deletion; a throw from routing is re-wrapped but the partial mutation
stays. -/
def deleteItem (s : Store) (item : Rec) : Except (String × Store) Store :=
  match alookup (idIndexContent s) (getField item s.keyField) with
  | none => .error ("No such item found.", s)
  | some _ =>
    let itemIndex :=
      findIndexJS s.items (fun i => getField i "id" == getField item "id")
    let s1 := { s with items := spliceRemove1 s.items itemIndex }
    match routeItem .delete item s1.keyField s1.indexSpecs with
    | .ok specs => .ok { s1 with indexSpecs := specs }
    | .error (_, specs) =>
      .error ("There was a problem deleting item.",
        { s1 with indexSpecs := specs })

/-- `truncate()`: install a fresh empty master list, then rebuild every
index. -/
def truncate (s : Store) : Except (String × Store) Store :=
  rebuildAll { s with items := [] }

/-- `getItems()` at the value level (all clone modes agree on values). -/
def getItems (s : Store) : List Rec := s.items

/-! ### Operation sequences -/

/-- The mutating operations quantified over by the invariant claims. -/
inductive Op where
  | addItem : Rec → Op
  | updateItem : Rec → Op
  | deleteItem : Rec → Op
  | rebuild : String → Op
  | rebuildAll : Op
deriving DecidableEq, Repr

/-- Apply one operation. -/
def applyOp (s : Store) : Op → Except (String × Store) Store
  | .addItem r => addItem s r
  | .updateItem r => updateItem s r
  | .deleteItem r => deleteItem s r
  | .rebuild name => rebuildByName s name
  | .rebuildAll => rebuildAll s

/-- The state after a call, whether or not it threw (a JavaScript
exception leaves the partially mutated object behind). -/
def afterCall : Except (String × Store) Store → Store
  | .ok s => s
  | .error (_, s) => s

instance {ε α : Type} [DecidableEq ε] [DecidableEq α] :
    DecidableEq (Except ε α) := fun
  | .ok a, .ok b =>
    match decEq a b with
    | isTrue h => isTrue (h ▸ rfl)
    | isFalse h => isFalse (fun c => h (Except.ok.inj c))
  | .ok _, .error _ => isFalse (fun c => Except.noConfusion c)
  | .error _, .ok _ => isFalse (fun c => Except.noConfusion c)
  | .error e, .error f =>
    match decEq e f with
    | isTrue h => isTrue (h ▸ rfl)
    | isFalse h => isFalse (fun c => h (Except.error.inj c))

/-! ### Store invariant and the index-consistency property -/

/-- One-to-one contents of an index object, `[]` when it is in
one-to-many shape. -/
def oneOf : IdxContent → List (Val × Rec)
  | .one m => m
  | .many _ => []

/-- One-to-many contents of an index object, `[]` when it is in
one-to-one shape. -/
def manyOf : IdxContent → List (Val × List Rec)
  | .one _ => []
  | .many m => m

/-- Whether an index object is in one-to-many shape. -/
def isMany : IdxContent → Bool
  | .one _ => false
  | .many _ => true

/-- The keys of an association object are pairwise distinct (true for
every JavaScript object). -/
def NoDupKeys {κ α : Type} (m : List (κ × α)) : Prop := (akeys m).Nodup


instance {κ α : Type} [DecidableEq κ] (m : List (κ × α)) :
    Decidable (NoDupKeys m) := by
  unfold NoDupKeys; infer_instance

/-- The primary-key values of the master list. -/
def pkeys (items : List Rec) : List Val := items.map (fun r => getField r "id")

/-- Correctness of the primary (one-to-one, key-field) index contents
with respect to a master list. -/
def IdOk (items : List Rec) (m : List (Val × Rec)) : Prop :=
  (∀ r ∈ items, alookup m (getField r "id") = some r) ∧
  (∀ p ∈ m, p.2 ∈ items ∧ getField p.2 "id" = p.1) ∧
  NoDupKeys m


instance (items : List Rec) (m : List (Val × Rec)) :
    Decidable (IdOk items m) := by
  unfold IdOk; infer_instance

/-- Correctness of a one-to-many index's contents with respect to a
master list: every stored bucket is a permutation of the records
currently carrying that field value, and every record's field value
has a bucket.  (A bucket may be empty.) -/
def ManyOk (indexField : String) (items : List Rec)
    (m : List (Val × List Rec)) : Prop :=
  (∀ p ∈ m, p.2.Perm (items.filter (fun r => getField r indexField == p.1))) ∧
  (∀ r ∈ items, (alookup m (getField r indexField)).isSome = true) ∧
  NoDupKeys m


instance (indexField : String) (items : List Rec) (m : List (Val × List Rec)) :
    Decidable (ManyOk indexField items m) := by
  unfold ManyOk; infer_instance

/-- `#specIndex` sanity: every registered name resolves to a position
holding a spec with that name. -/
def SpecIndexOk (s : Store) : Prop :=
  ∀ p ∈ s.specIndex, (s.indexSpecs[p.2]?).map IndexSpec.name = some (some p.1)


instance (s : Store) : Decidable (SpecIndexOk s) := by
  unfold SpecIndexOk; infer_instance

/-- The store invariant maintained (under suitable call disciplines) by
the mutating operations: key field `id`, the implicit primary index
first and correct, distinct primary keys, every secondary index
one-to-many and correct, and a sane name registry. -/
def Inv (s : Store) : Prop :=
  s.keyField = "id" ∧
  s.indexSpecs.head? = some { name := some "byId", indexField := "id",
                              relationship := ONE_TO_ONE,
                              index := .one (idIndexContent s) } ∧
  IdOk s.items (idIndexContent s) ∧
  (pkeys s.items).Nodup ∧
  (∀ spec ∈ s.indexSpecs.tail, spec.relationship = ONE_TO_MANY ∧
    isMany spec.index = true ∧ ManyOk spec.indexField s.items (manyOf spec.index)) ∧
  SpecIndexOk s


instance (s : Store) : Decidable (Inv s) := by
  unfold Inv; infer_instance

/-- The consistency property of claim C1, read off the claim text: for
every record R of the master list and every index I on field F,
ONE_TO_ONE gives I[R.F] = R, and ONE_TO_MANY gives exactly one entry of
the bucket I[R.F] whose primary-key value equals R's. -/
def Consistent (s : Store) : Prop :=
  ∀ r ∈ s.items, ∀ spec ∈ s.indexSpecs,
    (spec.relationship = ONE_TO_ONE →
      alookup (oneOf spec.index) (getField r spec.indexField) = some r) ∧
    (spec.relationship = ONE_TO_MANY →
      ((alookup (manyOf spec.index) (getField r spec.indexField)).getD []).countP
        (fun e => getField e s.keyField == getField r s.keyField) = 1)


instance (s : Store) : Decidable (Consistent s) := by
  unfold Consistent; infer_instance

/-- No index entry maps a field value to an empty bucket (claim C2's
"no entry with zero current records" for one-to-many indexes). -/
def NoEmptyBuckets (s : Store) : Prop :=
  ∀ spec ∈ s.indexSpecs, ∀ p ∈ manyOf spec.index, p.2 ≠ []


instance (s : Store) : Decidable (NoEmptyBuckets s) := by
  unfold NoEmptyBuckets; infer_instance

/-- Call discipline under which an operation completes and preserves
the store invariant: fresh key on add; existing key on update; on
delete an existing key and an argument carrying the stored record's
current value for every secondary index field; a registered name on
rebuild. -/
def OpOk (s : Store) : Op → Prop
  | .addItem r => getField r "id" ∉ pkeys s.items
  | .updateItem r =>
    (alookup (idIndexContent s) (getField r "id")).isSome = true
  | .deleteItem r =>
    (alookup (idIndexContent s) (getField r "id")).isSome = true ∧
    ∀ spec ∈ s.indexSpecs.tail, getField r spec.indexField =
      getField ((alookup (idIndexContent s) (getField r "id")).getD [])
        spec.indexField
  | .rebuild name => (alookup s.specIndex name).isSome = true
  | .rebuildAll => True

instance (s : Store) (op : Op) : Decidable (OpOk s op) :=
  match op with
  | .addItem r =>
    inferInstanceAs (Decidable (getField r "id" ∉ pkeys s.items))
  | .updateItem r =>
    inferInstanceAs
      (Decidable ((alookup (idIndexContent s) (getField r "id")).isSome = true))
  | .deleteItem _ =>
    inferInstanceAs (Decidable (_ ∧ _))
  | .rebuild _ => inferInstanceAs (Decidable (_ = true))
  | .rebuildAll => inferInstanceAs (Decidable True)


/-! ### The `ItemManager` facade (`ItemManager.js`), `add`/`has` only -/

/-- Facade state: the item-config key field, the id normalizer
(`idNormalizer` defaults to the identity pass-through) and the wrapped
`ListManager`. -/
structure ItemMgr where
  keyField : String
  normalizer : Val → Val
  lm : Store

/-- `ItemManager.has(name)`: truthiness of `#indexById[name]` (records
are objects, hence truthy whenever present). -/
def ItemMgr.has (im : ItemMgr) (k : Val) : Bool :=
  (alookup (idIndexContent im.lm) k).isSome

/-- `ItemManager.add(data)`: require the key field, forbid a reserved
explicit `id` when the key field is not `id`, default `data.id` to the
normalized key, reject an existing key (`try update`), and only then
call `listManager.addItem`.  Every rejection happens before any
mutation. -/
def ItemMgr.add (im : ItemMgr) (data : Rec) :
    Except (String × ItemMgr) ItemMgr :=
  if getField data im.keyField = .undef then
    .error ("Key field not found on at least one item.", im)
  else if im.keyField != "id" && recHasField data "id" then
    .error ("Inferred reserved id found on at least one item.", im)
  else
    let data1 :=
      if getField data "id" = .undef then
        recSetField data "id" (im.normalizer (getField data im.keyField))
      else data
    if im.has (getField data1 "id") then
      .error ("Cannot add item with existing key; try update.", im)
    else
      match addItem im.lm data1 with
      | .ok lm1 => .ok { im with lm := lm1 }
      | .error (e, lm1) => .error (e, { im with lm := lm1 })

/-! ### Reference-identity model of the getters (claim C8)

Records live in a heap (`heap`); the master list and the index buckets
hold heap addresses, mirroring the object references the JavaScript
store keeps.  `structuredClone` allocates a fresh address carrying the
same contents.  Only the read path is modelled; mutation of a returned
object is modelled as overwriting the heap at its address. -/

/-- Index contents at the reference level. -/
inductive GIdx where
  | one : List (Val × Nat) → GIdx
  | many : List (Val × List Nat) → GIdx
deriving DecidableEq, Repr

/-- An index spec at the reference level. -/
structure GSpec where
  name : Option String
  indexField : String
  relationship : Nat
  index : GIdx
deriving DecidableEq, Repr

/-- The store at the reference level. -/
structure GStore where
  heap : List Rec
  items : List Nat
  keyField : String
  indexSpecs : List GSpec
  specIndex : List (String × Nat)
deriving DecidableEq, Repr

/-- Addresses held in one index. -/
def gIdxAddrs : GIdx → List Nat
  | .one m => m.map Prod.snd
  | .many m => (m.map Prod.snd).flatten

/-- All record addresses reachable from the store structures. -/
def gAddrs (g : GStore) : List Nat :=
  g.items ++ (g.indexSpecs.map (fun spec => gIdxAddrs spec.index)).flatten

/-- Well-formedness: every reachable address points into the heap. -/
def GWF (g : GStore) : Prop := ∀ a ∈ gAddrs g, a < g.heap.length


instance (g : GStore) : Decidable (GWF g) := by
  unfold GWF; infer_instance

/-- The contents of the `#idIndex` object (first spec). -/
def gIdIndex (g : GStore) : List (Val × Nat) :=
  match g.indexSpecs.head? with
  | some spec =>
    match spec.index with
    | .one m => m
    | .many _ => []
  | none => []

/-- `structuredClone` of one record object: allocate a fresh address
with the same contents. -/
def cloneRec (h : List Rec) (a : Nat) : List Rec × Nat :=
  (h ++ [h.getD a []], h.length)

/-- `structuredClone` mapped over a list of record objects (fresh
container of fresh elements). -/
def cloneRecs (h : List Rec) : List Nat → List Rec × List Nat
  | [] => (h, [])
  | a :: rest =>
    let (h1, a1) := cloneRec h a
    let (h2, rest1) := cloneRecs h1 rest
    (h2, a1 :: rest1)

/-- The caller mutating the object at address `a` (after a getter
returned it). -/
def gHeapSet (g : GStore) (a : Nat) (v : Rec) : GStore :=
  { g with heap := g.heap.set a v }

/-- `getItem(id)` in the default (cloning) mode: primary-index lookup
followed by `structuredClone`. -/
def getItemG (g : GStore) (id : Val) : Option Nat × GStore :=
  match alookup (gIdIndex g) id with
  | none => (none, g)
  | some a =>
    let (h, a1) := cloneRec g.heap a
    (some a1, { g with heap := h })

/-- `getItems()` in the default mode: `structuredClone(this.#items)` —
a fresh array of fresh elements. -/
def getItemsG (g : GStore) : List Nat × GStore :=
  let (h, as) := cloneRecs g.heap g.items
  (as, { g with heap := h })

/-- Result of the reference-level `getByIndex`. -/
inductive GbiRes where
  | single : Option Nat → GbiRes
  | list : List Nat → GbiRes
deriving DecidableEq, Repr

/-- Addresses returned inside a `getByIndex` result. -/
def gbiAddrs : GbiRes → List Nat
  | .single none => []
  | .single (some a) => [a]
  | .list as => as

/-- `getByIndex({ indexName, key })` in the default mode
(`cloneAll = true`): one-to-one values are cloned, one-to-many buckets
are mapped through `structuredClone`, an absent one-to-many key gives
`[]`. -/
def getByIndexG (g : GStore) (indexName : String) (key : Val) :
    Option (GbiRes × GStore) :=
  match alookup g.specIndex indexName with
  | none => none
  | some pos =>
    match g.indexSpecs[pos]? with
    | none => none
    | some spec =>
      match spec.index with
      | .one m =>
        match alookup m key with
        | none => some (.single none, g)
        | some a =>
          let (h, a1) := cloneRec g.heap a
          some (.single (some a1), { g with heap := h })
      | .many m =>
        match alookup m key with
        | none => some (.list [], g)
        | some as =>
          let (h, as1) := cloneRecs g.heap as
          some (.list as1, { g with heap := h })

/-- Observable contents of a record address. -/
def gAt (g : GStore) (a : Nat) : Rec := g.heap.getD a []

/-- The store's observable master list (record contents in order). -/
def gObsItems (g : GStore) : List Rec := g.items.map (gAt g)

/-- The observable result of a primary-key lookup. -/
def gObsId (g : GStore) (id : Val) : Option Rec :=
  (alookup (gIdIndex g) id).map (gAt g)

/-- The observable result of an index lookup by name and key. -/
def gObsByIndex (g : GStore) (indexName : String) (key : Val) :
    Option (Option Rec ⊕ List Rec) :=
  match alookup g.specIndex indexName with
  | none => none
  | some pos =>
    match g.indexSpecs[pos]? with
    | none => none
    | some spec =>
      match spec.index with
      | .one m => some (.inl ((alookup m key).map (gAt g)))
      | .many m => some (.inr (((alookup m key).getD []).map (gAt g)))

/-! ### Reference-identity model of array and index objects (claims C9, C10)

Object identities are numbers below `nextId`; `idxIds` carries the
identity of each registered index object (parallel to
`base.indexSpecs`), `itemsId` the identity of the current `#items`
array, and `arrHeap` the contents of every array object ever used as a
master list.  Contents are delegated to the value-level `Store`.  Each
operation updates identities exactly as the source does: index objects
are only ever mutated in place (`truncateObject`, property writes,
bucket splices), while `truncate()` executes `this.#items = []`,
installing a fresh array object. -/

structure RStore where
  nextId : Nat
  idxIds : List Nat
  itemsId : Nat
  arrHeap : List (Nat × List Rec)
  base : Store

/-- Construction: the caller's array (identity 0) is adopted by
reference; `addIndex` creates the `byId` index object (identity 1). -/
def rconstruct (items : List Rec) (keyField : String) : RStore :=
  { nextId := 2, idxIds := [1], itemsId := 0,
    arrHeap := [(0, items)], base := construct items keyField }

/-- `addIndex`: a fresh index object (`const index = {}`) is allocated
and registered; it stays registered even when the initial rebuild
throws.  Returns the new object's identity (the live handle). -/
def raddIndex (rs : RStore) (name : Option String) (indexField : String)
    (relationship : Nat) : RStore × Nat :=
  ({ rs with
      nextId := rs.nextId + 1
      idxIds := rs.idxIds ++ [rs.nextId]
      base := afterCall (addIndex rs.base name indexField relationship) },
    rs.nextId)

/-- The operations of claim C9. -/
inductive ROp where
  | addItem : Rec → ROp
  | updateItem : Rec → ROp
  | deleteItem : Rec → ROp
  | rebuild : String → ROp
  | rebuildAll : ROp
  | truncate : ROp
deriving DecidableEq, Repr

/-- Apply one operation at the reference level.  `addItem`,
`updateItem` and `deleteItem` mutate the current master array in place
(push/splice), so `arrHeap` is updated at `itemsId`; `rebuild` and
`rebuildAll` rewrite index contents in place; `truncate` installs a
fresh empty array object and rebuilds.  No operation allocates or
replaces an index object, so `idxIds` is untouched. -/
def rApply (rs : RStore) : ROp → RStore
  | .addItem r =>
    let b := afterCall (addItem rs.base r)
    { rs with base := b, arrHeap := aset rs.arrHeap rs.itemsId b.items }
  | .updateItem r =>
    let b := afterCall (updateItem rs.base r)
    { rs with base := b, arrHeap := aset rs.arrHeap rs.itemsId b.items }
  | .deleteItem r =>
    let b := afterCall (deleteItem rs.base r)
    { rs with base := b, arrHeap := aset rs.arrHeap rs.itemsId b.items }
  | .rebuild name => { rs with base := afterCall (rebuildByName rs.base name) }
  | .rebuildAll => { rs with base := afterCall (rebuildAll rs.base) }
  | .truncate =>
    { rs with
        nextId := rs.nextId + 1
        itemsId := rs.nextId
        arrHeap := aset rs.arrHeap rs.nextId []
        base := afterCall (truncate rs.base) }

/-- Run a sequence of operations. -/
def rRun (rs : RStore) (ops : List ROp) : RStore := ops.foldl rApply rs

/-- `getIndex(name)` at the reference level: the identity of the live
index object registered under the name. -/
def rgetIndexId (rs : RStore) (name : String) : Option Nat :=
  match alookup rs.base.specIndex name with
  | none => none
  | some pos => rs.idxIds[pos]?

/-- `getItems({ noClone : true })`: the live master array itself. -/
def rgetItemsNoClone (rs : RStore) : Nat := rs.itemsId

/-- Reference-level well-formedness: identities are below `nextId` and
`idxIds` is parallel to the registered specs. -/
def RWF (rs : RStore) : Prop :=
  rs.idxIds.length = rs.base.indexSpecs.length ∧
  rs.itemsId < rs.nextId ∧
  (∀ i ∈ rs.idxIds, i < rs.nextId) ∧
  (∀ k ∈ akeys rs.arrHeap, k < rs.nextId)


instance (rs : RStore) : Decidable (RWF rs) := by
  unfold RWF; infer_instance

/-! ### Concrete fixtures used by witnesses and counterexamples -/

/-- `{ id : 1, type : "foo" }`. -/
def recFoo1 : Rec := [("id", .num 1), ("type", .str "foo")]

/-- `{ id : 2, type : "bar" }`. -/
def recBar2 : Rec := [("id", .num 2), ("type", .str "bar")]

/-- `{ id : 3, type : "foo" }`. -/
def recFoo3 : Rec := [("id", .num 3), ("type", .str "foo")]

/-- The spec's scenario store: three records, key field `id`, with a
one-to-many `byType` index on `type`. -/
def storeABC : Store :=
  afterCall (addIndex (construct [recFoo1, recBar2, recFoo3] "id")
    (some "byType") "type" ONE_TO_MANY)

/-- `storeABC` after `deleteItem({ id : 1, ... })` (spec scenario A). -/
def storeAfterDel : Store := afterCall (deleteItem storeABC recFoo1)

/-- `storeAfterDel` after `updateItem({ id : 3, type : "new" })`
(spec scenario B): the `foo` bucket is now present but empty. -/
def storeFooEmpty : Store :=
  afterCall (updateItem storeAfterDel [("id", .num 3), ("type", .str "new")])

/-- A store with a secondary ONE_TO_ONE index on a non-key field. -/
def storeFlavor : Store :=
  afterCall (addIndex (construct [[("id", .num 1), ("flavor", .str "x")]] "id")
    (some "byFlavor") "flavor" ONE_TO_ONE)

/-- A store constructed with `keyField : "name"` and no `id` fields. -/
def storeNames : Store :=
  construct [[("name", .str "a")], [("name", .str "b")]] "name"

/-- A facade over `storeABC` with the pass-through normalizer. -/
def imABC : ItemMgr := { keyField := "id", normalizer := id, lm := storeABC }

/-- `{ id : 1, type : "zzz" }` — a fresh record reusing key 1. -/
def recDup1 : Rec := [("id", .num 1), ("type", .str "zzz")]

/-- `{ id : 1, type : "dup" }` — another record reusing key 1. -/
def recDupB : Rec := [("id", .num 1), ("type", .str "dup")]

/-- `{ id : 3, type : "new" }` (the update of spec scenario B). -/
def recNew3 : Rec := [("id", .num 3), ("type", .str "new")]

/-- `{ id : 4, type : "baz" }` — a record with a fresh key. -/
def recNew4 : Rec := [("id", .num 4), ("type", .str "baz")]

/-- `{ id : 3, type : "stale" }` — key 3, but a `type` value that no
longer matches the stored record's. -/
def recStale3 : Rec := [("id", .num 3), ("type", .str "stale")]

/-- `{ name : "b", mark : 7 }` — a replacement record keyed by `name`. -/
def recNameB : Rec := [("name", .str "b"), ("mark", .num 7)]

/-- A reference-level store over two records, as built by the
constructor. -/
def rsTrunc : RStore := rconstruct [recFoo1, recBar2] "id"

/-- A reference-level getter store: two records on the heap, a primary
index and a one-to-many `byType` index. -/
def gEx : GStore :=
  { heap := [recFoo1, recBar2]
    items := [0, 1]
    keyField := "id"
    indexSpecs :=
      [ { name := some "byId", indexField := "id", relationship := ONE_TO_ONE,
          index := .one [(.num 1, 0), (.num 2, 1)] },
        { name := some "byType", indexField := "type",
          relationship := ONE_TO_MANY,
          index := .many [(.str "foo", [0]), (.str "bar", [1])] } ]
    specIndex := [("byId", 0), ("byType", 1)] }

/-! ## Theorems

### Association-object lemmas -/

theorem alookup_aset_self {κ α : Type} [DecidableEq κ]
    (m : List (κ × α)) (k : κ) (v : α) : alookup (aset m k v) k = some v := by
  induction m with
  | nil => simp [aset, alookup]
  | cons p rest ih =>
    obtain ⟨k1, v1⟩ := p
    by_cases h : k1 = k
    · simp [aset, h, alookup]
    · simp [aset, h, alookup, ih]

theorem alookup_aset_ne {κ α : Type} [DecidableEq κ]
    (m : List (κ × α)) (k k2 : κ) (v : α) (h : k2 ≠ k) :
    alookup (aset m k v) k2 = alookup m k2 := by
  induction m with
  | nil => simp [aset, alookup, Ne.symm h]
  | cons p rest ih =>
    obtain ⟨k1, v1⟩ := p
    by_cases h1 : k1 = k
    · subst h1
      simp [aset, alookup, Ne.symm h]
    · simp only [aset, if_neg h1, alookup]
      by_cases h2 : k1 = k2
      · simp [h2]
      · simp [h2, ih]

theorem alookup_adel_self {κ α : Type} [DecidableEq κ]
    (m : List (κ × α)) (k : κ) : alookup (adel m k) k = none := by
  induction m with
  | nil => simp [adel, alookup]
  | cons p rest ih =>
    obtain ⟨k1, v1⟩ := p
    by_cases h : k1 = k
    · simp [adel, h, ih]
    · simp [adel, h, alookup, ih]

theorem alookup_adel_ne {κ α : Type} [DecidableEq κ]
    (m : List (κ × α)) (k k2 : κ) (h : k2 ≠ k) :
    alookup (adel m k) k2 = alookup m k2 := by
  induction m with
  | nil => simp [adel]
  | cons p rest ih =>
    obtain ⟨k1, v1⟩ := p
    by_cases h1 : k1 = k
    · subst h1
      simp [adel, alookup, Ne.symm h, ih]
    · simp only [adel, if_neg h1, alookup]
      by_cases h2 : k1 = k2
      · simp [h2]
      · simp [h2, ih]

theorem mem_akeys_aset {κ α : Type} [DecidableEq κ]
    (m : List (κ × α)) (k k2 : κ) (v : α) :
    k2 ∈ akeys (aset m k v) ↔ k2 = k ∨ k2 ∈ akeys m := by
  induction m with
  | nil => simp [aset, akeys]
  | cons p rest ih =>
    obtain ⟨k1, v1⟩ := p
    by_cases h : k1 = k
    · subst h
      simp [aset, akeys]
    · simp only [aset, if_neg h, akeys, List.map_cons, List.mem_cons]
      constructor
      · rintro (h2 | h2)
        · exact Or.inr (Or.inl h2)
        · rcases (ih.mp h2) with h3 | h3
          · exact Or.inl h3
          · exact Or.inr (Or.inr h3)
      · rintro (h2 | h2 | h2)
        · exact Or.inr (ih.mpr (Or.inl h2))
        · exact Or.inl h2
        · exact Or.inr (ih.mpr (Or.inr h2))

theorem noDupKeys_aset {κ α : Type} [DecidableEq κ]
    (m : List (κ × α)) (k : κ) (v : α) (h : NoDupKeys m) :
    NoDupKeys (aset m k v) := by
  induction m with
  | nil => simp [aset, NoDupKeys, akeys]
  | cons p rest ih =>
    obtain ⟨k1, v1⟩ := p
    unfold NoDupKeys akeys at h
    simp only [List.map_cons, List.nodup_cons] at h
    by_cases h1 : k1 = k
    · subst h1
      have he : aset ((k1, v1) :: rest) k1 v = (k1, v) :: rest := by
        simp [aset]
      rw [he]
      unfold NoDupKeys akeys
      simp only [List.map_cons, List.nodup_cons]
      exact h
    · have he : aset ((k1, v1) :: rest) k v = (k1, v1) :: aset rest k v := by
        simp [aset, h1]
      rw [he]
      unfold NoDupKeys akeys
      simp only [List.map_cons, List.nodup_cons]
      constructor
      · intro hmem
        rcases (mem_akeys_aset rest k k1 v).mp hmem with h2 | h2
        · exact h1 h2
        · exact h.1 h2
      · exact ih h.2

theorem mem_akeys_adel {κ α : Type} [DecidableEq κ]
    (m : List (κ × α)) (k k2 : κ) :
    k2 ∈ akeys (adel m k) → k2 ∈ akeys m := by
  induction m with
  | nil => simp [adel]
  | cons p rest ih =>
    obtain ⟨k1, v1⟩ := p
    by_cases h : k1 = k
    · subst h
      simp only [adel, if_pos rfl, akeys, List.map_cons, List.mem_cons]
      intro h2
      exact Or.inr (ih h2)
    · simp only [adel, if_neg h, akeys, List.map_cons, List.mem_cons]
      rintro (h2 | h2)
      · exact Or.inl h2
      · exact Or.inr (ih h2)

theorem noDupKeys_adel {κ α : Type} [DecidableEq κ]
    (m : List (κ × α)) (k : κ) (h : NoDupKeys m) : NoDupKeys (adel m k) := by
  induction m with
  | nil => simp [adel, NoDupKeys, akeys]
  | cons p rest ih =>
    obtain ⟨k1, v1⟩ := p
    unfold NoDupKeys akeys at h
    simp only [List.map_cons, List.nodup_cons] at h
    by_cases h1 : k1 = k
    · exact by simpa [adel, h1] using ih h.2
    · unfold NoDupKeys akeys
      simp only [adel, if_neg h1, List.map_cons, List.nodup_cons]
      exact ⟨fun hmem => h.1 (mem_akeys_adel rest k k1 hmem), ih h.2⟩

theorem mem_of_alookup {κ α : Type} [DecidableEq κ]
    (m : List (κ × α)) (k : κ) (v : α) (h : alookup m k = some v) :
    (k, v) ∈ m := by
  induction m with
  | nil => simp [alookup] at h
  | cons p rest ih =>
    obtain ⟨k1, v1⟩ := p
    by_cases h1 : k1 = k
    · subst h1
      simp only [alookup, if_true, eq_self_iff_true] at h
      simp only [if_pos rfl, Option.some.injEq] at h
      subst h
      exact List.mem_cons_self _ _
    · simp only [alookup, if_neg h1] at h
      exact List.mem_cons_of_mem _ (ih h)

theorem alookup_eq_of_mem {κ α : Type} [DecidableEq κ]
    (m : List (κ × α)) (p : κ × α) (hnd : NoDupKeys m) (h : p ∈ m) :
    alookup m p.1 = some p.2 := by
  induction m with
  | nil => simp at h
  | cons q rest ih =>
    obtain ⟨k1, v1⟩ := q
    unfold NoDupKeys akeys at hnd
    simp only [List.map_cons, List.nodup_cons] at hnd
    rcases List.mem_cons.mp h with h1 | h1
    · subst h1
      simp [alookup]
    · have hk : k1 ≠ p.1 := by
        intro he
        exact hnd.1 (he ▸ (List.mem_map.mpr ⟨p, h1, rfl⟩))
      simp only [alookup, if_neg hk]
      exact ih hnd.2 h1

theorem alookup_isSome_of_mem_akeys {κ α : Type} [DecidableEq κ]
    (m : List (κ × α)) (k : κ) (h : k ∈ akeys m) :
    (alookup m k).isSome = true := by
  induction m with
  | nil => simp [akeys] at h
  | cons p rest ih =>
    obtain ⟨k1, v1⟩ := p
    by_cases h1 : k1 = k
    · simp [alookup, h1]
    · simp only [akeys, List.map_cons, List.mem_cons] at h
      rcases h with h2 | h2
      · exact absurd h2.symm h1
      · simp only [alookup, if_neg h1]
        exact ih h2

theorem mem_akeys_of_alookup_isSome {κ α : Type} [DecidableEq κ]
    (m : List (κ × α)) (k : κ) (h : (alookup m k).isSome = true) :
    k ∈ akeys m := by
  induction m with
  | nil => simp [alookup] at h
  | cons p rest ih =>
    obtain ⟨k1, v1⟩ := p
    by_cases h1 : k1 = k
    · simp [akeys, h1]
    · simp only [alookup, if_neg h1] at h
      simp only [akeys, List.map_cons, List.mem_cons]
      exact Or.inr (ih h)

/-! ### `findIndex` / `splice` lemmas -/

theorem findIndexJS_cons_pos {α : Type} (x : α) (rest : List α) (p : α → Bool)
    (h : p x = true) : findIndexJS (x :: rest) p = 0 := by
  simp [findIndexJS, h]

theorem findIndexJS_cons_neg {α : Type} (x : α) (rest : List α) (p : α → Bool)
    (h : p x = false) (n : Nat) (hr : findIndexJS rest p = (n : Int)) :
    findIndexJS (x :: rest) p = ((n + 1 : Nat) : Int) := by
  unfold findIndexJS
  rw [if_neg (by simp [h]), hr]
  rfl

theorem findIndexJS_decomp {α : Type} (l : List α) (p : α → Bool)
    (h : ∃ x ∈ l, p x = true) :
    ∃ l1 x l2, l = l1 ++ x :: l2 ∧ p x = true ∧ (∀ y ∈ l1, p y = false) ∧
      findIndexJS l p = (l1.length : Int) := by
  induction l with
  | nil => simp at h
  | cons a rest ih =>
    by_cases ha : p a = true
    · exact ⟨[], a, rest, rfl, ha, by simp, findIndexJS_cons_pos a rest p ha⟩
    · have ha2 : p a = false := by
        cases hpa : p a
        · rfl
        · exact absurd hpa ha
      have hrest : ∃ x ∈ rest, p x = true := by
        obtain ⟨x, hx, hpx⟩ := h
        rcases List.mem_cons.mp hx with h1 | h1
        · exact absurd (h1 ▸ hpx) ha
        · exact ⟨x, h1, hpx⟩
      obtain ⟨l1, x, l2, hdec, hpx, hl1, hfi⟩ := ih hrest
      refine ⟨a :: l1, x, l2, by rw [hdec]; rfl, hpx, ?_, ?_⟩
      · intro y hy
        rcases List.mem_cons.mp hy with h1 | h1
        · exact h1 ▸ ha2
        · exact hl1 y h1
      · have := findIndexJS_cons_neg a rest p ha2 l1.length hfi
        simpa using this

theorem spliceStart_natCast (len j : Nat) (h : j ≤ len) :
    spliceStart len (j : Int) = j := by
  unfold spliceStart
  rw [if_neg (by omega)]
  simp [Int.toNat_natCast, min_eq_left h]

theorem spliceRemove1_decomp {α : Type} (l1 l2 : List α) (x : α) :
    spliceRemove1 (l1 ++ x :: l2) ((l1.length : Nat) : Int) = l1 ++ l2 := by
  unfold spliceRemove1
  have hlen : l1.length ≤ (l1 ++ x :: l2).length := by
    simp
  rw [spliceStart_natCast _ _ hlen]
  have ht : (l1 ++ x :: l2).take l1.length = l1 := by
    rw [List.take_left]
  have hd : (l1 ++ x :: l2).drop (l1.length + 1) = l2 := by
    have : l1 ++ x :: l2 = (l1 ++ [x]) ++ l2 := by simp
    rw [this]
    have hl : (l1 ++ [x]).length = l1.length + 1 := by simp
    rw [← hl, List.drop_left]
  show (l1 ++ x :: l2).take l1.length ++ (l1 ++ x :: l2).drop (l1.length + 1) =
    l1 ++ l2
  rw [ht, hd]

theorem spliceReplace1_decomp {α : Type} (l1 l2 : List α) (x y : α) :
    spliceReplace1 (l1 ++ x :: l2) ((l1.length : Nat) : Int) y = l1 ++ y :: l2 := by
  unfold spliceReplace1
  have hlen : l1.length ≤ (l1 ++ x :: l2).length := by
    simp
  rw [spliceStart_natCast _ _ hlen]
  have ht : (l1 ++ x :: l2).take l1.length = l1 := by
    rw [List.take_left]
  have hd : (l1 ++ x :: l2).drop (l1.length + 1) = l2 := by
    have : l1 ++ x :: l2 = (l1 ++ [x]) ++ l2 := by simp
    rw [this]
    have hl : (l1 ++ [x]).length = l1.length + 1 := by simp
    rw [← hl, List.drop_left]
  show (l1 ++ x :: l2).take l1.length ++ [y] ++
      (l1 ++ x :: l2).drop (l1.length + 1) = l1 ++ y :: l2
  rw [ht, hd]
  simp

/-! ### Uniqueness and counting lemmas for records -/

theorem pkey_unique (items : List Rec) (hnd : (pkeys items).Nodup)
    (r1 r2 : Rec) (h1 : r1 ∈ items) (h2 : r2 ∈ items)
    (he : getField r1 "id" = getField r2 "id") : r1 = r2 :=
  List.inj_on_of_nodup_map hnd h1 h2 he

theorem countP_pkey_one (items : List Rec) (hnd : (pkeys items).Nodup)
    (r : Rec) (hr : r ∈ items) (q : Rec → Bool) (hq : q r = true) :
    items.countP
      (fun x => (getField x "id" == getField r "id") && q x) = 1 := by
  induction items with
  | nil => simp at hr
  | cons a rest ih =>
    have hnd2 : (pkeys rest).Nodup := by
      unfold pkeys at hnd ⊢
      simp only [List.map_cons, List.nodup_cons] at hnd
      exact hnd.2
    have hhead : getField a "id" ∉ pkeys rest := by
      unfold pkeys at hnd ⊢
      simp only [List.map_cons, List.nodup_cons] at hnd
      exact hnd.1
    rw [List.countP_cons]
    by_cases hpa : ((getField a "id" == getField r "id") && q a) = true
    · have hae : getField a "id" = getField r "id" := by
        have := (Bool.and_eq_true _ _).mp hpa
        exact beq_iff_eq.mp this.1
      have hzero : rest.countP
          (fun x => (getField x "id" == getField r "id") && q x) = 0 := by
        apply List.countP_eq_zero.mpr
        intro x hx
        simp only [Bool.and_eq_true, beq_iff_eq, not_and]
        intro hxe
        exfalso
        apply hhead
        rw [hae, ← hxe]
        exact List.mem_map.mpr ⟨x, hx, rfl⟩
      rw [hzero]
      simp [hpa]
    · have har : a ≠ r := by
        intro he
        apply hpa
        subst he
        simp [hq]
      have hrrest : r ∈ rest := by
        rcases List.mem_cons.mp hr with h1 | h1
        · exact absurd h1.symm har
        · exact h1
      rw [ih hnd2 hrrest]
      simp [hpa]

/-! ### Permutation surgery -/

theorem perm_remove_middle {α : Type} (l1 l2 u1 u2 : List α) (a : α)
    (h : (l1 ++ a :: l2).Perm (u1 ++ a :: u2)) :
    (l1 ++ l2).Perm (u1 ++ u2) := by
  have h1 : (a :: (l1 ++ l2)).Perm (a :: (u1 ++ u2)) :=
    (List.perm_middle.symm.trans h).trans List.perm_middle
  exact h1.cons_inv

theorem perm_replace_middle {α : Type} (l1 l2 u1 u2 : List α) (a b : α)
    (h : (l1 ++ a :: l2).Perm (u1 ++ a :: u2)) :
    (l1 ++ b :: l2).Perm (u1 ++ b :: u2) := by
  have h1 := perm_remove_middle l1 l2 u1 u2 a h
  have h2 : (b :: (l1 ++ l2)).Perm (b :: (u1 ++ u2)) := h1.cons b
  exact (List.perm_middle.trans h2).trans List.perm_middle.symm

theorem perm_append_singleton_middle {α : Type} (l u1 u2 : List α) (b : α)
    (h : l.Perm (u1 ++ u2)) : (l ++ [b]).Perm (u1 ++ b :: u2) := by
  have h1 : (l ++ [b]).Perm (b :: l) := (List.perm_append_singleton b l)
  have h2 : (b :: l).Perm (b :: (u1 ++ u2)) := h.cons b
  exact (h1.trans h2).trans List.perm_middle.symm

/-! ### `ManyOk` utilities -/

theorem manyOk_perm {indexField : String} {items : List Rec}
    {m : List (Val × List Rec)} (h : ManyOk indexField items m) (v : Val) :
    ((alookup m v).getD []).Perm
      (items.filter (fun r => getField r indexField == v)) := by
  cases hv : alookup m v with
  | some l =>
    have := h.1 (v, l) (mem_of_alookup m v l hv)
    simpa using this
  | none =>
    have hfil : items.filter (fun r => getField r indexField == v) = [] := by
      apply List.filter_eq_nil_iff.mpr
      intro x hx
      simp only [beq_iff_eq]
      intro he
      have := h.2.1 x hx
      rw [he, hv] at this
      simp at this
    rw [hfil]
    simp

theorem manyOk_intro {indexField : String} {items : List Rec}
    {m : List (Val × List Rec)} (hnd : NoDupKeys m)
    (h : ∀ v, ((alookup m v).getD []).Perm
      (items.filter (fun r => getField r indexField == v))) :
    ManyOk indexField items m := by
  refine ⟨?_, ?_, hnd⟩
  · intro p hp
    have hl := alookup_eq_of_mem m p hnd hp
    have := h p.1
    rw [hl] at this
    simpa using this
  · intro r hr
    have hm : r ∈ items.filter
        (fun x => getField x indexField == getField r indexField) := by
      apply List.mem_filter.mpr
      exact ⟨hr, by simp⟩
    cases hv : alookup m (getField r indexField) with
    | some l => simp
    | none =>
      exfalso
      have := h (getField r indexField)
      rw [hv] at this
      simp only [Option.getD_none] at this
      have := this.symm.eq_nil
      rw [this] at hm
      simp at hm

/-! ### Rebuild correctness -/

theorem noDupKeys_foldl_aset (items : List Rec) (indexField : String) :
    ∀ acc : List (Val × Rec), NoDupKeys acc →
      NoDupKeys (items.foldl
        (fun m item => aset m (getField item indexField) item) acc) := by
  induction items with
  | nil => intro acc h; simpa using h
  | cons a rest ih =>
    intro acc h
    simpa using ih _ (noDupKeys_aset acc (getField a indexField) a h)

theorem rebuildOneToOne_lookup (indexField : String) :
    ∀ (items : List Rec),
      (items.map (fun r => getField r indexField)).Nodup →
      ∀ (acc : List (Val × Rec)) (k : Val),
        alookup (items.foldl
          (fun m item => aset m (getField item indexField) item) acc) k =
        (match items.find? (fun r => getField r indexField == k) with
         | some r => some r
         | none => alookup acc k) := by
  intro items
  induction items with
  | nil => intro _ acc k; simp [List.find?]
  | cons a rest ih =>
    intro hnd acc k
    simp only [List.map_cons, List.nodup_cons] at hnd
    by_cases ha : getField a indexField = k
    · have hfind : rest.find? (fun r => getField r indexField == k) = none := by
        apply List.find?_eq_none.mpr
        intro x hx
        simp only [beq_iff_eq]
        intro he
        exact hnd.1 (List.mem_map.mpr ⟨x, hx, by rw [he, ha]⟩)
      have hstep := ih hnd.2 (aset acc (getField a indexField) a) k
      simp only [List.foldl_cons]
      rw [hstep, hfind]
      have : (a :: rest).find? (fun r => getField r indexField == k) = some a :=
        List.find?_cons_of_pos _ (by simp [ha])
      rw [this]
      rw [← ha]
      exact alookup_aset_self acc _ a
    · have hstep := ih hnd.2 (aset acc (getField a indexField) a) k
      simp only [List.foldl_cons]
      rw [hstep]
      have hcons : (a :: rest).find? (fun r => getField r indexField == k) =
          rest.find? (fun r => getField r indexField == k) :=
        List.find?_cons_of_neg _ (by simp [ha])
      rw [hcons]
      cases hf : rest.find? (fun r => getField r indexField == k) with
      | some r => simp
      | none =>
        simp only []
        exact alookup_aset_ne acc _ k a (fun he => ha he.symm)

theorem rebuildOneToOne_IdOk (items : List Rec) (hnd : (pkeys items).Nodup) :
    IdOk items (rebuildOneToOne items "id") := by
  have hnd2 : NoDupKeys (rebuildOneToOne items "id") := by
    unfold rebuildOneToOne
    exact noDupKeys_foldl_aset items "id" [] (by simp [NoDupKeys, akeys])
  have hlook := rebuildOneToOne_lookup "id" items hnd []
  refine ⟨?_, ?_, hnd2⟩
  · intro r hr
    have h1 := hlook (getField r "id")
    unfold rebuildOneToOne
    rw [h1]
    cases hf : items.find? (fun x => getField x "id" == getField r "id") with
    | some r2 =>
      have hr2mem := List.mem_of_find?_eq_some hf
      have hr2p := List.find?_some hf
      simp only [beq_iff_eq] at hr2p
      have : r2 = r := pkey_unique items hnd r2 r hr2mem hr hr2p
      simp [this]
    | none =>
      exfalso
      have := List.find?_eq_none.mp hf r hr
      simp at this
  · intro p hp
    have hl := alookup_eq_of_mem _ p hnd2 hp
    unfold rebuildOneToOne at hl
    rw [hlook p.1] at hl
    cases hf : items.find? (fun x => getField x "id" == p.1) with
    | some r2 =>
      rw [hf] at hl
      simp only [Option.some.injEq] at hl
      have hr2mem := List.mem_of_find?_eq_some hf
      have hr2p := List.find?_some hf
      simp only [beq_iff_eq] at hr2p
      rw [← hl]
      exact ⟨hr2mem, hr2p⟩
    | none =>
      rw [hf] at hl
      simp [alookup] at hl

theorem noDupKeys_foldl_addOneToMany (items : List Rec) (indexField : String) :
    ∀ acc : List (Val × List Rec), NoDupKeys acc →
      NoDupKeys (items.foldl (fun m item => addOneToMany item indexField m) acc) := by
  induction items with
  | nil => intro acc h; simpa using h
  | cons a rest ih =>
    intro acc h
    have : NoDupKeys (addOneToMany a indexField acc) := by
      unfold addOneToMany
      exact noDupKeys_aset _ _ _ h
    simpa using ih _ this

theorem rebuildOneToMany_lookup (indexField : String) :
    ∀ (items : List Rec) (acc : List (Val × List Rec)) (v : Val),
      (alookup (items.foldl
        (fun m item => addOneToMany item indexField m) acc) v).getD [] =
      (alookup acc v).getD [] ++
        items.filter (fun r => getField r indexField == v) := by
  intro items
  induction items with
  | nil => intro acc v; simp
  | cons a rest ih =>
    intro acc v
    simp only [List.foldl_cons, List.filter_cons]
    by_cases ha : getField a indexField = v
    · have hstep := ih (addOneToMany a indexField acc) v
      rw [hstep]
      have hlk : alookup (addOneToMany a indexField acc) v =
          some ((alookup acc v).getD [] ++ [a]) := by
        unfold addOneToMany
        rw [← ha]
        exact alookup_aset_self acc _ _
      rw [hlk]
      simp [ha]
    · have hstep := ih (addOneToMany a indexField acc) v
      rw [hstep]
      have hlk : alookup (addOneToMany a indexField acc) v = alookup acc v := by
        unfold addOneToMany
        exact alookup_aset_ne acc _ v _ (fun he => ha he.symm)
      rw [hlk]
      simp [ha]

theorem rebuildOneToMany_ManyOk (items : List Rec) (indexField : String) :
    ManyOk indexField items (rebuildOneToMany items indexField) := by
  apply manyOk_intro
  · unfold rebuildOneToMany
    exact noDupKeys_foldl_addOneToMany items indexField []
      (by simp [NoDupKeys, akeys])
  · intro v
    unfold rebuildOneToMany
    rw [rebuildOneToMany_lookup indexField items [] v]
    simp [alookup]

/-! ### Characterization of reverse-order routing -/

theorem routeItemAux_ok (op : RouteOp) (item : Rec) (kf : String)
    (orig : List IndexSpec) (spec0 : IndexSpec) (f : Nat → IdxContent)
    (horig0 : orig[0]? = some spec0)
    (hstep : ∀ pos spec, orig[pos]? = some spec →
      routeSpec op item kf spec0.index (pos = 0) spec = .ok (f pos)) :
    ∀ (poss : List Nat), poss.Pairwise (· > ·) →
      (poss = [] ∨ poss.getLast? = some 0) →
      ∀ (cur : List IndexSpec), cur.length = orig.length →
      (∀ q ∈ poss, cur[q]? = orig[q]?) →
      ∃ res, routeItemAux op item kf cur poss = .ok res ∧
        res.length = cur.length ∧
        ∀ q : Nat, res[q]? = if q ∈ poss
          then (orig[q]?).map (fun spec => { spec with index := f q })
          else cur[q]? := by
  intro poss
  induction poss with
  | nil =>
    intro _ _ cur hlen hagree
    exact ⟨cur, rfl, rfl, fun q => by simp [routeItemAux]⟩
  | cons p rest ih =>
    intro hpw hlast cur hlen hagree
    have hcp : cur[p]? = orig[p]? := hagree p (List.mem_cons_self p rest)
    have h0mem : (0 : Nat) ∈ p :: rest := by
      rcases hlast with h | h
      · exact absurd h (List.cons_ne_nil p rest)
      · exact List.mem_of_mem_getLast? (by rw [Option.mem_def]; exact h)
    have hcur0 : cur[0]? = some spec0 := by
      rw [hagree 0 h0mem]; exact horig0
    have hlastrest : rest = [] ∨ rest.getLast? = some 0 := by
      cases rest with
      | nil => exact Or.inl rfl
      | cons r rest2 =>
        rcases hlast with h | h
        · exact absurd h (List.cons_ne_nil p (r :: rest2))
        · right
          rw [← List.getLast?_cons_cons]
          exact h
    have hpnotin : p ∉ rest := by
      intro hmem
      exact absurd (List.rel_of_pairwise_cons hpw hmem) (lt_irrefl p)
    cases horigp : orig[p]? with
    | none =>
      have hcpn : cur[p]? = none := by rw [hcp, horigp]
      have hstep2 : routeItemAux op item kf cur (p :: rest) =
          routeItemAux op item kf cur rest := by
        simp only [routeItemAux, hcpn]
      obtain ⟨res, hres, hreslen, hresq⟩ :=
        ih hpw.of_cons hlastrest cur hlen
          (fun q hq => hagree q (List.mem_cons_of_mem p hq))
      refine ⟨res, by rw [hstep2]; exact hres, hreslen, ?_⟩
      intro q
      by_cases hq : q ∈ p :: rest
      · rcases List.mem_cons.mp hq with h1 | h1
        · subst h1
          rw [hresq q, if_neg hpnotin, if_pos hq, hcpn, horigp]
          rfl
        · rw [hresq q, if_pos h1, if_pos hq]
      · have hq2 : q ∉ rest := fun h2 => hq (List.mem_cons_of_mem p h2)
        rw [hresq q, if_neg hq2, if_neg hq]
    | some spec =>
      have hcps : cur[p]? = some spec := by rw [hcp, horigp]
      have hplen : p < cur.length := (List.getElem?_eq_some.mp hcps).1
      have hstep2 : routeItemAux op item kf cur (p :: rest) =
          routeItemAux op item kf
            (cur.set p { spec with index := f p }) rest := by
        simp only [routeItemAux, hcps, hcur0, hstep p spec horigp]
      have hagree1 : ∀ q ∈ rest,
          (cur.set p { spec with index := f p })[q]? = orig[q]? := by
        intro q hq
        have hpq : p ≠ q :=
          fun he => hpnotin (he ▸ hq)
        rw [List.getElem?_set_ne hpq]
        exact hagree q (List.mem_cons_of_mem p hq)
      obtain ⟨res, hres, hreslen, hresq⟩ :=
        ih hpw.of_cons hlastrest (cur.set p { spec with index := f p })
          (by rw [List.length_set]; exact hlen) hagree1
      refine ⟨res, by rw [hstep2]; exact hres, by
        rw [hreslen, List.length_set], ?_⟩
      intro q
      by_cases hq : q ∈ p :: rest
      · rcases List.mem_cons.mp hq with h1 | h1
        · subst h1
          rw [hresq q, if_neg hpnotin, if_pos hq,
            List.getElem?_set_self hplen, horigp]
          rfl
        · rw [hresq q, if_pos h1, if_pos hq]
      · have hq2 : q ∉ rest := fun h2 => hq (List.mem_cons_of_mem p h2)
        have hpq : p ≠ q := fun he => hq (he ▸ List.mem_cons_self p rest)
        rw [hresq q, if_neg hq2, if_neg hq, List.getElem?_set_ne hpq]

theorem revRange_pairwise (n : Nat) :
    (List.range n).reverse.Pairwise (· > ·) := by
  rw [List.pairwise_reverse]
  simpa using List.pairwise_lt_range n

theorem revRange_last (n : Nat) (h : 0 < n) :
    (List.range n).reverse.getLast? = some 0 := by
  rw [List.getLast?_reverse]
  cases n with
  | zero => omega
  | succ k => simp [List.range_succ_eq_map]

theorem mem_revRange (n q : Nat) :
    q ∈ (List.range n).reverse ↔ q < n := by
  rw [List.mem_reverse, List.mem_range]

/-- Top-level form: when every spec routes successfully (reading the
primary index's original contents), `routeItem` succeeds and replaces
each spec's index contents independently. -/
theorem routeItem_ok (op : RouteOp) (item : Rec) (kf : String)
    (orig : List IndexSpec) (spec0 : IndexSpec) (f : Nat → IdxContent)
    (horig0 : orig[0]? = some spec0)
    (hstep : ∀ pos spec, orig[pos]? = some spec →
      routeSpec op item kf spec0.index (pos = 0) spec = .ok (f pos)) :
    ∃ res, routeItem op item kf orig = .ok res ∧
      res.length = orig.length ∧
      ∀ q : Nat, res[q]? =
        (orig[q]?).map (fun spec => { spec with index := f q }) := by
  have hpos : 0 < orig.length := by
    have := (List.getElem?_eq_some.mp horig0).1
    omega
  obtain ⟨res, hres, hreslen, hresq⟩ :=
    routeItemAux_ok op item kf orig spec0 f horig0 hstep
      (List.range orig.length).reverse (revRange_pairwise _)
      (Or.inr (revRange_last _ hpos)) orig rfl (fun q _ => rfl)
  refine ⟨res, hres, hreslen, ?_⟩
  intro q
  by_cases hq : q < orig.length
  · rw [hresq q, if_pos ((mem_revRange _ q).mpr hq)]
  · rw [hresq q, if_neg (fun h2 => hq ((mem_revRange _ q).mp h2))]
    have h1 : orig[q]? = none := by
      rw [List.getElem?_eq_none]
      omega
    rw [h1]
    rfl

theorem rebuildAllAux_ok (items : List Rec) (orig : List IndexSpec)
    (f : Nat → IdxContent)
    (hstep : ∀ pos spec, orig[pos]? = some spec →
      rebuildContent items spec = .ok (f pos)) :
    ∀ (poss : List Nat), poss.Pairwise (· > ·) →
      ∀ (cur : List IndexSpec), cur.length = orig.length →
      (∀ q ∈ poss, cur[q]? = orig[q]?) →
      ∃ res, rebuildAllAux items cur poss = .ok res ∧
        res.length = cur.length ∧
        ∀ q : Nat, res[q]? = if q ∈ poss
          then (orig[q]?).map (fun spec => { spec with index := f q })
          else cur[q]? := by
  intro poss
  induction poss with
  | nil =>
    intro _ cur hlen hagree
    exact ⟨cur, rfl, rfl, fun q => by simp [rebuildAllAux]⟩
  | cons p rest ih =>
    intro hpw cur hlen hagree
    have hcp : cur[p]? = orig[p]? := hagree p (List.mem_cons_self p rest)
    have hpnotin : p ∉ rest := by
      intro hmem
      exact absurd (List.rel_of_pairwise_cons hpw hmem) (lt_irrefl p)
    cases horigp : orig[p]? with
    | none =>
      have hcpn : cur[p]? = none := by rw [hcp, horigp]
      have hstep2 : rebuildAllAux items cur (p :: rest) =
          rebuildAllAux items cur rest := by
        simp only [rebuildAllAux, hcpn]
      obtain ⟨res, hres, hreslen, hresq⟩ :=
        ih hpw.of_cons cur hlen
          (fun q hq => hagree q (List.mem_cons_of_mem p hq))
      refine ⟨res, by rw [hstep2]; exact hres, hreslen, ?_⟩
      intro q
      by_cases hq : q ∈ p :: rest
      · rcases List.mem_cons.mp hq with h1 | h1
        · subst h1
          rw [hresq q, if_neg hpnotin, if_pos hq, hcpn, horigp]
          rfl
        · rw [hresq q, if_pos h1, if_pos hq]
      · have hq2 : q ∉ rest := fun h2 => hq (List.mem_cons_of_mem p h2)
        rw [hresq q, if_neg hq2, if_neg hq]
    | some spec =>
      have hcps : cur[p]? = some spec := by rw [hcp, horigp]
      have hplen : p < cur.length := (List.getElem?_eq_some.mp hcps).1
      have hstep2 : rebuildAllAux items cur (p :: rest) =
          rebuildAllAux items
            (cur.set p { spec with index := f p }) rest := by
        simp only [rebuildAllAux, hcps, hstep p spec horigp]
      have hagree1 : ∀ q ∈ rest,
          (cur.set p { spec with index := f p })[q]? = orig[q]? := by
        intro q hq
        have hpq : p ≠ q := fun he => hpnotin (he ▸ hq)
        rw [List.getElem?_set_ne hpq]
        exact hagree q (List.mem_cons_of_mem p hq)
      obtain ⟨res, hres, hreslen, hresq⟩ :=
        ih hpw.of_cons (cur.set p { spec with index := f p })
          (by rw [List.length_set]; exact hlen) hagree1
      refine ⟨res, by rw [hstep2]; exact hres, by
        rw [hreslen, List.length_set], ?_⟩
      intro q
      by_cases hq : q ∈ p :: rest
      · rcases List.mem_cons.mp hq with h1 | h1
        · subst h1
          rw [hresq q, if_neg hpnotin, if_pos hq,
            List.getElem?_set_self hplen, horigp]
          rfl
        · rw [hresq q, if_pos h1, if_pos hq]
      · have hq2 : q ∉ rest := fun h2 => hq (List.mem_cons_of_mem p h2)
        have hpq : p ≠ q := fun he => hq (he ▸ List.mem_cons_self p rest)
        rw [hresq q, if_neg hq2, if_neg hq, List.getElem?_set_ne hpq]

theorem rebuildAll_chars (s : Store) (f : Nat → IdxContent)
    (hstep : ∀ pos spec, s.indexSpecs[pos]? = some spec →
      rebuildContent s.items spec = .ok (f pos)) :
    ∃ s2, rebuildAll s = .ok s2 ∧ s2.items = s.items ∧
      s2.keyField = s.keyField ∧ s2.specIndex = s.specIndex ∧
      s2.indexSpecs.length = s.indexSpecs.length ∧
      ∀ q : Nat, s2.indexSpecs[q]? =
        (s.indexSpecs[q]?).map (fun spec => { spec with index := f q }) := by
  obtain ⟨res, hres, hreslen, hresq⟩ :=
    rebuildAllAux_ok s.items s.indexSpecs f hstep
      (List.range s.indexSpecs.length).reverse (revRange_pairwise _)
      s.indexSpecs rfl (fun q _ => rfl)
  refine ⟨{ s with indexSpecs := res }, ?_, rfl, rfl, rfl, hreslen, ?_⟩
  · unfold rebuildAll
    rw [hres]
  · intro q
    by_cases hq : q < s.indexSpecs.length
    · rw [hresq q, if_pos ((mem_revRange _ q).mpr hq)]
    · rw [hresq q, if_neg (fun h2 => hq ((mem_revRange _ q).mp h2))]
      have h1 : s.indexSpecs[q]? = none := by
        rw [List.getElem?_eq_none]
        omega
      rw [h1]
      rfl

/-! ### `routeSpec` computations -/

theorem except_map_bind_ok {α β γ ε : Type} (g : α → Except ε β)
    (h : β → γ) (a : α) :
    Except.map h (Except.ok a >>= g) = Except.map h (g a) := rfl

theorem routeSpec_primary (op : RouteOp) (item : Rec) (kf : String)
    (m₀ : List (Val × Rec)) (nm : Option String) (b : Bool) (hb : b = true)
    (hdel : op = .delete → ∃ old, alookup m₀ (getField item "id") = some old ∧
      getField old "id" = getField item "id") :
    routeSpec op item kf (.one m₀) b
      { name := nm, indexField := "id", relationship := ONE_TO_ONE,
        index := .one m₀ } =
      .ok (.one (match op with
        | .add => aset m₀ (getField item "id") item
        | .update => aset m₀ (getField item "id") item
        | .delete => adel m₀ (getField item "id"))) := by
  subst hb
  cases op with
  | add => simp [routeSpec, addOneToOne]
  | update => simp [routeSpec, updateOneToOne, Except.map]
  | delete =>
    obtain ⟨old, hold, holdk⟩ := hdel rfl
    simp [routeSpec, deleteOneToOne, hold, holdk, Except.map]

theorem routeSpec_tail_add (item : Rec) (kf : String) (idIdx : IdxContent)
    (b : Bool) (spec : IndexSpec) (m : List (Val × List Rec))
    (hrel : spec.relationship = ONE_TO_MANY) (hidx : spec.index = .many m) :
    routeSpec .add item kf idIdx b spec =
      .ok (.many (addOneToMany item spec.indexField m)) := by
  simp [routeSpec, hrel, hidx, ONE_TO_ONE, ONE_TO_MANY]

theorem routeSpec_tail_update (item : Rec) (m₀ : List (Val × Rec)) (b : Bool)
    (spec : IndexSpec) (m : List (Val × List Rec)) (old : Rec)
    (origList : List Rec)
    (hrel : spec.relationship = ONE_TO_MANY) (hidx : spec.index = .many m)
    (hold : alookup m₀ (getField item "id") = some old)
    (horiglist : alookup m (getField old spec.indexField) = some origList) :
    routeSpec .update item "id" (.one m₀) b spec =
      .ok (.many (
        if getField old spec.indexField = getField item spec.indexField then
          aset m (getField old spec.indexField)
            (spliceReplace1 origList
              (findIndexJS origList
                (fun i => getField i "id" == getField old "id")) item)
        else
          addOneToMany item spec.indexField
            (aset m (getField old spec.indexField)
              (spliceRemove1 origList
                (findIndexJS origList
                  (fun i => getField i "id" == getField old "id")))))) := by
  simp only [routeSpec, hrel]
  rw [if_neg (by norm_num [ONE_TO_ONE, ONE_TO_MANY]),
    if_pos (by norm_num [ONE_TO_MANY])]
  simp only [hidx, updateOneToMany, getOrigData, hold, horiglist]
  rw [except_map_bind_ok]
  by_cases hv : getField old spec.indexField = getField item spec.indexField
  · simp only [hv]
    simp [Except.map, pure, Except.pure]
  · simp only [if_neg hv]
    simp [Except.map, pure, Except.pure, hv]

theorem routeSpec_tail_delete (item : Rec) (m₀ : List (Val × Rec)) (b : Bool)
    (spec : IndexSpec) (m : List (Val × List Rec)) (old : Rec)
    (origList : List Rec)
    (hrel : spec.relationship = ONE_TO_MANY) (hidx : spec.index = .many m)
    (hold : alookup m₀ (getField item "id") = some old)
    (horiglist : alookup m (getField old spec.indexField) = some origList) :
    routeSpec .delete item "id" (.one m₀) b spec =
      .ok (.many (
        let newList := spliceRemove1 origList
          (findIndexJS origList
            (fun i => getField i "id" == getField old "id"))
        let m1 := aset m (getField old spec.indexField) newList
        if newList.length = 0 then adel m1 (getField item spec.indexField)
        else m1)) := by
  simp only [routeSpec, hrel]
  rw [if_neg (by norm_num [ONE_TO_ONE, ONE_TO_MANY]),
    if_pos (by norm_num [ONE_TO_MANY])]
  simp only [hidx, deleteOneToMany, getOrigData, hold, horiglist]
  rw [except_map_bind_ok]
  by_cases hv : (spliceRemove1 origList
      (findIndexJS origList
        (fun i => getField i "id" == getField old "id"))).length = 0
  · simp only [hv]
    simp [Except.map, pure, Except.pure]
  · simp only [if_neg hv]
    simp [Except.map, pure, Except.pure, hv]

/-! ### Master-list and bucket decompositions -/

theorem pkeys_append (l1 l2 : List Rec) :
    pkeys (l1 ++ l2) = pkeys l1 ++ pkeys l2 := by
  simp [pkeys]

theorem pkeys_cons (r : Rec) (l : List Rec) :
    pkeys (r :: l) = getField r "id" :: pkeys l := by
  simp [pkeys]

theorem pkey_middle_notin (l1 l2 : List Rec) (old : Rec)
    (hnd : (pkeys (l1 ++ old :: l2)).Nodup) :
    getField old "id" ∉ pkeys l1 ∧ getField old "id" ∉ pkeys l2 := by
  rw [pkeys_append, pkeys_cons] at hnd
  have h2 := List.nodup_middle.mp hnd
  simp only [List.nodup_cons, List.mem_append] at h2
  exact ⟨fun h => h2.1 (Or.inl h), fun h => h2.1 (Or.inr h)⟩

theorem pkey_side_ne (l1 l2 : List Rec) (old x : Rec)
    (hnd : (pkeys (l1 ++ old :: l2)).Nodup)
    (hx : x ∈ l1 ∨ x ∈ l2) : getField x "id" ≠ getField old "id" := by
  obtain ⟨h1, h2⟩ := pkey_middle_notin l1 l2 old hnd
  intro he
  rcases hx with hx | hx
  · exact h1 (he ▸ List.mem_map.mpr ⟨x, hx, rfl⟩)
  · exact h2 (he ▸ List.mem_map.mpr ⟨x, hx, rfl⟩)

theorem master_find (items : List Rec) (old r : Rec)
    (hnd : (pkeys items).Nodup) (hmem : old ∈ items)
    (hkey : getField old "id" = getField r "id") :
    ∃ l1 l2, items = l1 ++ old :: l2 ∧
      findIndexJS items (fun i => getField i "id" == getField r "id") =
        (l1.length : Int) := by
  obtain ⟨l1, x, l2, hdec, hpx, _, hfi⟩ :=
    findIndexJS_decomp items (fun i => getField i "id" == getField r "id")
      ⟨old, hmem, by simp [hkey]⟩
  have hxmem : x ∈ items := by rw [hdec]; simp
  have hxold : x = old := by
    apply pkey_unique items hnd x old hxmem hmem
    rw [beq_iff_eq] at hpx
    rw [hpx, hkey]
  subst hxold
  exact ⟨l1, l2, hdec, hfi⟩

theorem bucket_decomp (indexField : String) (items : List Rec)
    (m : List (Val × List Rec)) (old : Rec) (bl : List Rec)
    (hmany : ManyOk indexField items m) (hnd : (pkeys items).Nodup)
    (hmem : old ∈ items)
    (hbl : alookup m (getField old indexField) = some bl) :
    ∃ b1 b2, bl = b1 ++ old :: b2 ∧
      findIndexJS bl (fun i => getField i "id" == getField old "id") =
        (b1.length : Int) ∧
      bl.Perm (items.filter
        (fun x => getField x indexField == getField old indexField)) := by
  have hperm : bl.Perm (items.filter
      (fun x => getField x indexField == getField old indexField)) := by
    have := hmany.1 (getField old indexField, bl) (mem_of_alookup _ _ _ hbl)
    simpa using this
  have holdbl : old ∈ bl := by
    rw [hperm.mem_iff]
    exact List.mem_filter.mpr ⟨hmem, by simp⟩
  obtain ⟨b1, x, b2, hdec, hpx, _, hfi⟩ :=
    findIndexJS_decomp bl (fun i => getField i "id" == getField old "id")
      ⟨old, holdbl, by simp⟩
  have hxmem : x ∈ items := by
    have : x ∈ bl := by rw [hdec]; simp
    have := hperm.mem_iff.mp this
    exact (List.mem_filter.mp this).1
  have hxold : x = old := by
    apply pkey_unique items hnd x old hxmem hmem
    rw [beq_iff_eq] at hpx
    exact hpx
  subst hxold
  exact ⟨b1, b2, hdec, hfi, hperm⟩

/-! ### Run lemmas for the one-to-many update and delete helpers -/

theorem except_bind_ok {α β ε : Type} (g : α → Except ε β) (a : α) :
    ((Except.ok a : Except ε α) >>= g) = g a := rfl

theorem updateOneToMany_run (indexField : String) (idIdx : List (Val × Rec))
    (old r : Rec) (m : List (Val × List Rec)) (bl : List Rec)
    (hold : alookup idIdx (getField r "id") = some old)
    (hbl : alookup m (getField old indexField) = some bl) :
    updateOneToMany r "id" indexField idIdx m =
      (if getField old indexField = getField r indexField then
        .ok (aset m (getField old indexField)
          (spliceReplace1 bl
            (findIndexJS bl (fun i => getField i "id" == getField old "id")) r))
      else
        .ok (addOneToMany r indexField
          (aset m (getField old indexField)
            (spliceRemove1 bl
              (findIndexJS bl
                (fun i => getField i "id" == getField old "id")))))) := by
  unfold updateOneToMany getOrigData
  rw [hold]
  simp only [hbl]
  rw [except_bind_ok]
  by_cases hv : getField old indexField = getField r indexField
  · simp only [hv]
    simp [pure, Except.pure]
  · simp only [if_neg hv]
    simp [pure, Except.pure, hv]

theorem deleteOneToMany_run (indexField : String) (idIdx : List (Val × Rec))
    (old r : Rec) (m : List (Val × List Rec)) (bl : List Rec)
    (hold : alookup idIdx (getField r "id") = some old)
    (hbl : alookup m (getField old indexField) = some bl) :
    deleteOneToMany r "id" indexField idIdx m =
      (let newList := spliceRemove1 bl
        (findIndexJS bl (fun i => getField i "id" == getField old "id"))
       let m1 := aset m (getField old indexField) newList
       if newList.length = 0 then .ok (adel m1 (getField r indexField))
       else .ok m1) := by
  unfold deleteOneToMany getOrigData
  rw [hold]
  simp only [hbl]
  rw [except_bind_ok]
  by_cases hv : (spliceRemove1 bl
      (findIndexJS bl
        (fun i => getField i "id" == getField old "id"))).length = 0
  · simp only [hv]
    simp [pure, Except.pure]
  · simp only [if_neg hv]
    simp [pure, Except.pure, hv]

/-! ### Index-contents preservation for each item mutation -/

theorem filter_middle (F : String) (l1 l2 : List Rec) (x : Rec) (v : Val) :
    (l1 ++ x :: l2).filter (fun a => getField a F == v) =
      l1.filter (fun a => getField a F == v) ++
        (if getField x F = v then
          x :: l2.filter (fun a => getField a F == v)
         else l2.filter (fun a => getField a F == v)) := by
  rw [List.filter_append, List.filter_cons]
  by_cases h : getField x F = v
  · simp [h]
  · simp [h]

theorem manyOk_add (F : String) (items : List Rec) (r : Rec)
    (m : List (Val × List Rec)) (h : ManyOk F items m) :
    ManyOk F (items ++ [r]) (addOneToMany r F m) := by
  apply manyOk_intro
  · unfold addOneToMany
    exact noDupKeys_aset _ _ _ h.2.2
  · intro v
    unfold addOneToMany
    by_cases hv : getField r F = v
    · subst hv
      rw [alookup_aset_self]
      have hfil : (items ++ [r]).filter
          (fun a => getField a F == getField r F) =
          items.filter (fun a => getField a F == getField r F) ++ [r] := by
        rw [List.filter_append]
        simp
      rw [hfil]
      simpa using (manyOk_perm h (getField r F)).append_right [r]
    · rw [alookup_aset_ne _ _ _ _ (fun he => hv he.symm)]
      have hfil : (items ++ [r]).filter (fun a => getField a F == v) =
          items.filter (fun a => getField a F == v) := by
        rw [List.filter_append]
        simp [hv]
      rw [hfil]
      exact manyOk_perm h v

theorem manyOk_update (F : String) (idIdx : List (Val × Rec))
    (l1 l2 : List Rec) (old r : Rec) (m : List (Val × List Rec))
    (hold : alookup idIdx (getField r "id") = some old)
    (hmany : ManyOk F (l1 ++ old :: l2) m)
    (hnd : (pkeys (l1 ++ old :: l2)).Nodup) :
    ∃ m2, updateOneToMany r "id" F idIdx m = .ok m2 ∧
      ManyOk F (l1 ++ r :: l2) m2 := by
  have hmem : old ∈ l1 ++ old :: l2 := by simp
  obtain ⟨bl, hbl⟩ := Option.isSome_iff_exists.mp (hmany.2.1 old hmem)
  obtain ⟨b1, b2, hbldec, hfi, hperm⟩ :=
    bucket_decomp F _ m old bl hmany hnd hmem hbl
  have hperm2 : (b1 ++ old :: b2).Perm
      (l1.filter (fun a => getField a F == getField old F) ++ old ::
        l2.filter (fun a => getField a F == getField old F)) := by
    rw [← hbldec]
    have hfil := filter_middle F l1 l2 old (getField old F)
    rw [if_pos rfl] at hfil
    rw [← hfil]
    exact hperm
  rw [updateOneToMany_run F idIdx old r m bl hold hbl]
  have hsplR : spliceReplace1 bl
      (findIndexJS bl (fun i => getField i "id" == getField old "id")) r =
      b1 ++ r :: b2 := by
    rw [hfi, hbldec]
    exact spliceReplace1_decomp b1 b2 old r
  have hsplD : spliceRemove1 bl
      (findIndexJS bl (fun i => getField i "id" == getField old "id")) =
      b1 ++ b2 := by
    rw [hfi, hbldec]
    exact spliceRemove1_decomp b1 b2 old
  by_cases hv : getField old F = getField r F
  · rw [if_pos hv, hsplR]
    refine ⟨_, rfl, ?_⟩
    apply manyOk_intro
    · exact noDupKeys_aset _ _ _ hmany.2.2
    · intro v
      by_cases hvv : getField old F = v
      · subst hvv
        rw [alookup_aset_self]
        have hfil := filter_middle F l1 l2 r (getField old F)
        rw [if_pos hv.symm] at hfil
        rw [hfil]
        simp only [Option.getD_some]
        exact perm_replace_middle b1 b2 _ _ old r hperm2
      · rw [alookup_aset_ne _ _ _ _ (fun he => hvv he.symm)]
        have hfil1 := filter_middle F l1 l2 old v
        rw [if_neg hvv] at hfil1
        have hfil2 := filter_middle F l1 l2 r v
        rw [if_neg (fun he => hvv (hv.trans he))] at hfil2
        rw [hfil2, ← hfil1]
        exact manyOk_perm hmany v
  · rw [if_neg hv, hsplD]
    refine ⟨_, rfl, ?_⟩
    apply manyOk_intro
    · unfold addOneToMany
      exact noDupKeys_aset _ _ _ (noDupKeys_aset _ _ _ hmany.2.2)
    · intro v
      unfold addOneToMany
      by_cases hvv1 : getField r F = v
      · subst hvv1
        rw [alookup_aset_self]
        rw [alookup_aset_ne _ _ _ _ (fun he => hv he.symm)]
        have hfil1 := filter_middle F l1 l2 old (getField r F)
        rw [if_neg hv] at hfil1
        have hfil2 := filter_middle F l1 l2 r (getField r F)
        rw [if_pos rfl] at hfil2
        rw [hfil2]
        simp only [Option.getD_some]
        apply perm_append_singleton_middle
        have := manyOk_perm hmany (getField r F)
        rw [hfil1] at this
        exact this
      · by_cases hvv0 : getField old F = v
        · subst hvv0
          rw [alookup_aset_ne _ _ _ _ (fun he => hvv1 he.symm),
            alookup_aset_self]
          have hfil := filter_middle F l1 l2 r (getField old F)
          rw [if_neg (fun he => hvv1 he)] at hfil
          rw [hfil]
          simp only [Option.getD_some]
          exact perm_remove_middle b1 b2 _ _ old hperm2
        · rw [alookup_aset_ne _ _ _ _ (fun he => hvv1 he.symm),
            alookup_aset_ne _ _ _ _ (fun he => hvv0 he.symm)]
          have hfil1 := filter_middle F l1 l2 old v
          rw [if_neg hvv0] at hfil1
          have hfil2 := filter_middle F l1 l2 r v
          rw [if_neg hvv1] at hfil2
          rw [hfil2, ← hfil1]
          exact manyOk_perm hmany v

theorem manyOk_delete (F : String) (idIdx : List (Val × Rec))
    (l1 l2 : List Rec) (old r : Rec) (m : List (Val × List Rec))
    (hold : alookup idIdx (getField r "id") = some old)
    (hacc : getField r F = getField old F)
    (hmany : ManyOk F (l1 ++ old :: l2) m)
    (hnd : (pkeys (l1 ++ old :: l2)).Nodup) :
    ∃ m2, deleteOneToMany r "id" F idIdx m = .ok m2 ∧
      ManyOk F (l1 ++ l2) m2 ∧
      (∀ v, alookup m2 v = some [] → alookup m v = some []) := by
  have hmem : old ∈ l1 ++ old :: l2 := by simp
  obtain ⟨bl, hbl⟩ := Option.isSome_iff_exists.mp (hmany.2.1 old hmem)
  obtain ⟨b1, b2, hbldec, hfi, hperm⟩ :=
    bucket_decomp F _ m old bl hmany hnd hmem hbl
  have hperm2 : (b1 ++ old :: b2).Perm
      (l1.filter (fun a => getField a F == getField old F) ++ old ::
        l2.filter (fun a => getField a F == getField old F)) := by
    rw [← hbldec]
    have hfil := filter_middle F l1 l2 old (getField old F)
    rw [if_pos rfl] at hfil
    rw [← hfil]
    exact hperm
  have hperm3 : (b1 ++ b2).Perm
      (l1.filter (fun a => getField a F == getField old F) ++
        l2.filter (fun a => getField a F == getField old F)) :=
    perm_remove_middle b1 b2 _ _ old hperm2
  rw [deleteOneToMany_run F idIdx old r m bl hold hbl]
  have hsplD : spliceRemove1 bl
      (findIndexJS bl (fun i => getField i "id" == getField old "id")) =
      b1 ++ b2 := by
    rw [hfi, hbldec]
    exact spliceRemove1_decomp b1 b2 old
  rw [hsplD]
  have hfildel : ∀ v, getField old F ≠ v →
      (l1 ++ l2).filter (fun a => getField a F == v) =
      (l1 ++ old :: l2).filter (fun a => getField a F == v) := by
    intro v hvv
    have hfil := filter_middle F l1 l2 old v
    rw [if_neg hvv] at hfil
    rw [hfil, List.filter_append]
  by_cases hlen : (b1 ++ b2).length = 0
  · rw [if_pos hlen]
    have hnil : b1 ++ b2 = [] := List.length_eq_zero.mp hlen
    refine ⟨_, rfl, ?_, ?_⟩
    · apply manyOk_intro
      · exact noDupKeys_adel _ _ (noDupKeys_aset _ _ _ hmany.2.2)
      · intro v
        by_cases hvv : getField old F = v
        · subst hvv
          rw [hacc, alookup_adel_self]
          have : (l1 ++ l2).filter
              (fun a => getField a F == getField old F) = [] := by
            have h0 : (l1.filter (fun a => getField a F == getField old F) ++
                l2.filter (fun a => getField a F == getField old F)) = [] := by
              have := hperm3
              rw [hnil] at this
              exact this.nil_eq.symm
            rw [List.filter_append]
            exact h0
          rw [this]
          simp
        · rw [hacc, alookup_adel_ne _ _ _ (fun he => hvv he.symm),
            alookup_aset_ne _ _ _ _ (fun he => hvv he.symm),
            hfildel v hvv]
          exact manyOk_perm hmany v
    · intro v hlook
      by_cases hvv : getField old F = v
      · subst hvv
        rw [hacc, alookup_adel_self] at hlook
        exact absurd hlook (by simp)
      · rw [hacc, alookup_adel_ne _ _ _ (fun he => hvv he.symm),
          alookup_aset_ne _ _ _ _ (fun he => hvv he.symm)] at hlook
        exact hlook
  · rw [if_neg hlen]
    refine ⟨_, rfl, ?_, ?_⟩
    · apply manyOk_intro
      · exact noDupKeys_aset _ _ _ hmany.2.2
      · intro v
        by_cases hvv : getField old F = v
        · subst hvv
          rw [alookup_aset_self]
          have hfil : (l1 ++ l2).filter
              (fun a => getField a F == getField old F) =
              l1.filter (fun a => getField a F == getField old F) ++
              l2.filter (fun a => getField a F == getField old F) :=
            List.filter_append _ _
          rw [hfil]
          simpa using hperm3
        · rw [alookup_aset_ne _ _ _ _ (fun he => hvv he.symm),
            hfildel v hvv]
          exact manyOk_perm hmany v
    · intro v hlook
      by_cases hvv : getField old F = v
      · subst hvv
        rw [alookup_aset_self] at hlook
        simp only [Option.some.injEq] at hlook
        exact absurd hlook.symm (by simpa [List.length_eq_zero] using hlen)
      · rw [alookup_aset_ne _ _ _ _ (fun he => hvv he.symm)] at hlook
        exact hlook

/-! ### Primary-index preservation for each item mutation -/

theorem idOk_add (items : List Rec) (m₀ : List (Val × Rec)) (r : Rec)
    (hid : IdOk items m₀) (hfresh : getField r "id" ∉ pkeys items) :
    IdOk (items ++ [r]) (aset m₀ (getField r "id") r) := by
  have hnd2 : NoDupKeys (aset m₀ (getField r "id") r) :=
    noDupKeys_aset _ _ _ hid.2.2
  refine ⟨?_, ?_, hnd2⟩
  · intro x hx
    rcases List.mem_append.mp hx with hx1 | hx1
    · have hne : getField x "id" ≠ getField r "id" := by
        intro he
        exact hfresh (he ▸ List.mem_map.mpr ⟨x, hx1, rfl⟩)
      rw [alookup_aset_ne _ _ _ _ hne]
      exact hid.1 x hx1
    · have hx2 : x = r := by simpa using hx1
      subst hx2
      exact alookup_aset_self _ _ _
  · intro p hp
    have hl := alookup_eq_of_mem _ p hnd2 hp
    by_cases hk : p.1 = getField r "id"
    · rw [hk, alookup_aset_self] at hl
      simp only [Option.some.injEq] at hl
      subst hl
      exact ⟨List.mem_append.mpr (Or.inr (by simp)), hk.symm⟩
    · rw [alookup_aset_ne _ _ _ _ hk] at hl
      have := hid.2.1 (p.1, p.2) (mem_of_alookup _ _ _ hl)
      exact ⟨List.mem_append.mpr (Or.inl this.1), this.2⟩

theorem idOk_update (l1 l2 : List Rec) (old r : Rec)
    (m₀ : List (Val × Rec)) (hid : IdOk (l1 ++ old :: l2) m₀)
    (hnd : (pkeys (l1 ++ old :: l2)).Nodup)
    (hkey : getField old "id" = getField r "id") :
    IdOk (l1 ++ r :: l2) (aset m₀ (getField r "id") r) := by
  have hnd2 : NoDupKeys (aset m₀ (getField r "id") r) :=
    noDupKeys_aset _ _ _ hid.2.2
  refine ⟨?_, ?_, hnd2⟩
  · intro x hx
    rcases List.mem_append.mp hx with hx1 | hx1
    · have hne : getField x "id" ≠ getField r "id" := by
        rw [← hkey]
        exact pkey_side_ne l1 l2 old x hnd (Or.inl hx1)
      rw [alookup_aset_ne _ _ _ _ hne]
      exact hid.1 x (List.mem_append.mpr (Or.inl hx1))
    · rcases List.mem_cons.mp hx1 with hx2 | hx2
      · subst hx2
        exact alookup_aset_self _ _ _
      · have hne : getField x "id" ≠ getField r "id" := by
          rw [← hkey]
          exact pkey_side_ne l1 l2 old x hnd (Or.inr hx2)
        rw [alookup_aset_ne _ _ _ _ hne]
        exact hid.1 x (by simp [hx2])
  · intro p hp
    have hl := alookup_eq_of_mem _ p hnd2 hp
    by_cases hk : p.1 = getField r "id"
    · rw [hk, alookup_aset_self] at hl
      simp only [Option.some.injEq] at hl
      subst hl
      exact ⟨by simp, hk.symm⟩
    · rw [alookup_aset_ne _ _ _ _ hk] at hl
      have h2 := hid.2.1 (p.1, p.2) (mem_of_alookup _ _ _ hl)
      have hne : p.2 ≠ old := by
        intro he
        apply hk
        rw [← h2.2, he, hkey]
      have : p.2 ∈ l1 ++ r :: l2 := by
        rcases List.mem_append.mp h2.1 with h3 | h3
        · exact List.mem_append.mpr (Or.inl h3)
        · rcases List.mem_cons.mp h3 with h4 | h4
          · exact absurd h4 hne
          · simp [h4]
      exact ⟨this, h2.2⟩

theorem idOk_delete (l1 l2 : List Rec) (old r : Rec)
    (m₀ : List (Val × Rec)) (hid : IdOk (l1 ++ old :: l2) m₀)
    (hnd : (pkeys (l1 ++ old :: l2)).Nodup)
    (hkey : getField old "id" = getField r "id") :
    IdOk (l1 ++ l2) (adel m₀ (getField r "id")) := by
  have hnd2 : NoDupKeys (adel m₀ (getField r "id")) :=
    noDupKeys_adel _ _ hid.2.2
  refine ⟨?_, ?_, hnd2⟩
  · intro x hx
    have hne : getField x "id" ≠ getField r "id" := by
      rw [← hkey]
      exact pkey_side_ne l1 l2 old x hnd (List.mem_append.mp hx)
    rw [alookup_adel_ne _ _ _ hne]
    have : x ∈ l1 ++ old :: l2 := by
      rcases List.mem_append.mp hx with h3 | h3
      · exact List.mem_append.mpr (Or.inl h3)
      · simp [h3]
    exact hid.1 x this
  · intro p hp
    have hl := alookup_eq_of_mem _ p hnd2 hp
    by_cases hk : p.1 = getField r "id"
    · rw [hk, alookup_adel_self] at hl
      exact absurd hl (by simp)
    · rw [alookup_adel_ne _ _ _ hk] at hl
      have h2 := hid.2.1 (p.1, p.2) (mem_of_alookup _ _ _ hl)
      have hne : p.2 ≠ old := by
        intro he
        apply hk
        rw [← h2.2, he, hkey]
      have : p.2 ∈ l1 ++ l2 := by
        rcases List.mem_append.mp h2.1 with h3 | h3
        · exact List.mem_append.mpr (Or.inl h3)
        · rcases List.mem_cons.mp h3 with h4 | h4
          · exact absurd h4 hne
          · exact List.mem_append.mpr (Or.inr h4)
      exact ⟨this, h2.2⟩

/-! ### Primary-key distinctness preservation -/

theorem pkeys_nodup_add (items : List Rec) (r : Rec)
    (hnd : (pkeys items).Nodup) (hfresh : getField r "id" ∉ pkeys items) :
    (pkeys (items ++ [r])).Nodup := by
  rw [pkeys_append, List.nodup_append]
  refine ⟨hnd, by simp [pkeys], ?_⟩
  intro a ha hb
  have hb2 : a = getField r "id" := by simpa [pkeys] using hb
  exact hfresh (hb2 ▸ ha)

theorem pkeys_nodup_update (l1 l2 : List Rec) (old r : Rec)
    (hnd : (pkeys (l1 ++ old :: l2)).Nodup)
    (hkey : getField old "id" = getField r "id") :
    (pkeys (l1 ++ r :: l2)).Nodup := by
  rw [pkeys_append, pkeys_cons]
  rw [pkeys_append, pkeys_cons] at hnd
  rw [← hkey]
  exact hnd

theorem pkeys_nodup_delete (l1 l2 : List Rec) (old : Rec)
    (hnd : (pkeys (l1 ++ old :: l2)).Nodup) :
    (pkeys (l1 ++ l2)).Nodup := by
  rw [pkeys_append]
  rw [pkeys_append, pkeys_cons] at hnd
  have := List.nodup_middle.mp hnd
  exact this.of_cons

/-! ### Store-level invariant preservation -/

theorem inv_spec0 (s : Store) (h : Inv s) :
    s.indexSpecs[0]? = some { name := some "byId", indexField := "id",
                              relationship := ONE_TO_ONE,
                              index := .one (idIndexContent s) } := by
  rw [← List.head?_eq_getElem?]
  exact h.2.1

theorem idIndexContent_of_head (s : Store) (m : List (Val × Rec))
    (nm : Option String)
    (hhead : s.indexSpecs[0]? = some { name := nm, indexField := "id",
                                       relationship := ONE_TO_ONE,
                                       index := .one m }) :
    idIndexContent s = m := by
  unfold idIndexContent
  rw [List.head?_eq_getElem?, hhead]

theorem inv_tail_spec (s : Store) (h : Inv s) (q : Nat) (spec : IndexSpec)
    (hq : s.indexSpecs[q + 1]? = some spec) :
    spec.relationship = ONE_TO_MANY ∧ ∃ m, spec.index = .many m ∧
      ManyOk spec.indexField s.items m := by
  have hmem : spec ∈ s.indexSpecs.tail :=
    List.mem_iff_getElem?.mpr ⟨q, by rw [List.getElem?_tail]; exact hq⟩
  obtain ⟨hrel, hisM, hok⟩ := h.2.2.2.2.1 spec hmem
  cases hidx : spec.index with
  | one m =>
    rw [hidx] at hisM
    simp [isMany] at hisM
  | many m =>
    refine ⟨hrel, m, rfl, ?_⟩
    have hm : manyOf spec.index = m := by rw [hidx]; rfl
    rw [← hm]
    exact hok

theorem addItem_inv (s : Store) (r : Rec) (hInv : Inv s)
    (hfresh : getField r "id" ∉ pkeys s.items) :
    ∃ s2, addItem s r = .ok s2 ∧ Inv s2 ∧ s2.items = s.items ++ [r] ∧
      s2.keyField = s.keyField ∧ s2.specIndex = s.specIndex ∧
      s2.indexSpecs.length = s.indexSpecs.length := by
  have hspec0 := inv_spec0 s hInv
  have hstep : ∀ (pos : Nat) (spec : IndexSpec),
      s.indexSpecs[pos]? = some spec →
      routeSpec .add r s.keyField (.one (idIndexContent s)) (pos = 0) spec =
        .ok (if pos = 0 then
          .one (aset (idIndexContent s) (getField r "id") r)
        else match s.indexSpecs[pos]? with
          | some spec2 =>
            .many (addOneToMany r spec2.indexField (manyOf spec2.index))
          | none => .one []) := by
    intro pos spec hpos
    cases pos with
    | zero =>
      rw [hspec0] at hpos
      have hspec : spec = { name := some "byId", indexField := "id",
                            relationship := ONE_TO_ONE,
                            index := .one (idIndexContent s) } := by
        simpa using hpos.symm
      subst hspec
      rw [if_pos rfl]
      exact routeSpec_primary .add r s.keyField (idIndexContent s)
        (some "byId") _ rfl (by intro h; cases h)
    | succ q =>
      obtain ⟨hrel, m, hidx, _⟩ := inv_tail_spec s hInv q spec hpos
      rw [if_neg (Nat.succ_ne_zero q), hpos]
      have hmany : manyOf spec.index = m := by rw [hidx]; rfl
      show routeSpec .add r s.keyField (.one (idIndexContent s)) _ spec =
        .ok (.many (addOneToMany r spec.indexField (manyOf spec.index)))
      rw [hmany]
      exact routeSpec_tail_add r s.keyField _ _ spec m hrel hidx
  obtain ⟨res, hroute, hlen, hq⟩ :=
    routeItem_ok .add r s.keyField s.indexSpecs _ (fun pos =>
      if pos = 0 then .one (aset (idIndexContent s) (getField r "id") r)
      else match s.indexSpecs[pos]? with
        | some spec => .many (addOneToMany r spec.indexField (manyOf spec.index))
        | none => .one []) hspec0 hstep
  refine ⟨{ s with items := s.items ++ [r], indexSpecs := res }, ?_, ?_, rfl,
          rfl, rfl, by rw [hlen]⟩
  · show addItem s r = _
    unfold addItem
    simp only []
    rw [hroute]
  · -- the invariant for the new store
    have hq0 : res[0]? = some { name := some "byId", indexField := "id",
                                relationship := ONE_TO_ONE,
                                index := .one (aset (idIndexContent s)
                                  (getField r "id") r) } := by
      rw [hq 0, hspec0]
      rfl
    have hid2 : idIndexContent { s with items := s.items ++ [r],
                                         indexSpecs := res } =
        aset (idIndexContent s) (getField r "id") r :=
      idIndexContent_of_head _ _ _ hq0
    refine ⟨hInv.1, ?_, ?_, ?_, ?_, ?_⟩
    · rw [List.head?_eq_getElem?]
      show res[0]? = _
      rw [hq0, hid2]
    · rw [hid2]
      exact idOk_add s.items (idIndexContent s) r hInv.2.2.1 hfresh
    · exact pkeys_nodup_add s.items r hInv.2.2.2.1 hfresh
    · intro spec hmem
      obtain ⟨q2, hq2⟩ := List.mem_iff_getElem?.mp hmem
      rw [List.getElem?_tail] at hq2
      rw [hq q2.succ] at hq2
      cases horig : s.indexSpecs[q2 + 1]? with
      | none => rw [horig] at hq2; simp at hq2
      | some spec2 =>
        rw [horig] at hq2
        simp only [Option.map_some', Option.some.injEq,
          if_neg (Nat.succ_ne_zero q2)] at hq2
        obtain ⟨hrel2, m2, hidx2, hok2⟩ := inv_tail_spec s hInv q2 spec2 horig
        have hmany2 : manyOf spec2.index = m2 := by rw [hidx2]; rfl
        subst hq2
        rw [hmany2]
        refine ⟨by simpa using hrel2, by simp [isMany], ?_⟩
        show ManyOk spec2.indexField (s.items ++ [r])
          (manyOf (.many (addOneToMany r spec2.indexField m2)))
        show ManyOk spec2.indexField (s.items ++ [r])
          (addOneToMany r spec2.indexField m2)
        exact manyOk_add spec2.indexField s.items r m2 hok2
    · intro p hp
      have := hInv.2.2.2.2.2 p hp
      show (res[p.2]?).map IndexSpec.name = _
      rw [hq p.2]
      cases horig : s.indexSpecs[p.2]? with
      | none => rw [horig] at this; simp at this
      | some spec2 =>
        rw [horig] at this
        simpa using this

theorem routeSpec_tail_update_eq (item : Rec) (m₀ : List (Val × Rec))
    (b : Bool) (spec : IndexSpec) (m : List (Val × List Rec))
    (hrel : spec.relationship = ONE_TO_MANY) (hidx : spec.index = .many m) :
    routeSpec .update item "id" (.one m₀) b spec =
      (updateOneToMany item "id" spec.indexField m₀ m).map .many := by
  simp only [routeSpec, hrel]
  rw [if_neg (by norm_num [ONE_TO_ONE, ONE_TO_MANY]),
    if_pos (by norm_num [ONE_TO_MANY])]
  simp only [hidx]

theorem routeSpec_tail_delete_eq (item : Rec) (m₀ : List (Val × Rec))
    (b : Bool) (spec : IndexSpec) (m : List (Val × List Rec))
    (hrel : spec.relationship = ONE_TO_MANY) (hidx : spec.index = .many m) :
    routeSpec .delete item "id" (.one m₀) b spec =
      (deleteOneToMany item "id" spec.indexField m₀ m).map .many := by
  simp only [routeSpec, hrel]
  rw [if_neg (by norm_num [ONE_TO_ONE, ONE_TO_MANY]),
    if_pos (by norm_num [ONE_TO_MANY])]
  simp only [hidx]

theorem updateItem_inv (s : Store) (r : Rec) (hInv : Inv s) (old : Rec)
    (hold : alookup (idIndexContent s) (getField r "id") = some old) :
    ∃ s2 l1 l2, updateItem s r = .ok s2 ∧ Inv s2 ∧
      s.items = l1 ++ old :: l2 ∧ s2.items = l1 ++ r :: l2 ∧
      s2.keyField = s.keyField ∧ s2.specIndex = s.specIndex ∧
      s2.indexSpecs.length = s.indexSpecs.length := by
  have hkf := hInv.1
  have hspec0 := inv_spec0 s hInv
  have hnd := hInv.2.2.2.1
  have holdfacts := hInv.2.2.1.2.1 (getField r "id", old)
    (mem_of_alookup _ _ _ hold)
  have holdmem : old ∈ s.items := holdfacts.1
  have holdkey : getField old "id" = getField r "id" := holdfacts.2
  obtain ⟨l1, l2, hdec, hfi⟩ := master_find s.items old r hnd holdmem holdkey
  have hstep : ∀ (pos : Nat) (spec : IndexSpec),
      s.indexSpecs[pos]? = some spec →
      routeSpec .update r "id" (.one (idIndexContent s)) (pos = 0) spec =
        .ok (if pos = 0 then
          .one (aset (idIndexContent s) (getField r "id") r)
        else match s.indexSpecs[pos]? with
          | some spec2 =>
            match updateOneToMany r "id" spec2.indexField (idIndexContent s)
                (manyOf spec2.index) with
            | .ok m2 => .many m2
            | .error _ => .one []
          | none => .one []) := by
    intro pos spec hpos
    cases pos with
    | zero =>
      rw [hspec0] at hpos
      have hspec : spec = { name := some "byId", indexField := "id",
                            relationship := ONE_TO_ONE,
                            index := .one (idIndexContent s) } := by
        simpa using hpos.symm
      subst hspec
      rw [if_pos rfl]
      exact routeSpec_primary .update r "id" (idIndexContent s)
        (some "byId") _ rfl (by intro h; cases h)
    | succ q =>
      obtain ⟨hrel, m, hidx, hok⟩ := inv_tail_spec s hInv q spec hpos
      have hmany : manyOf spec.index = m := by rw [hidx]; rfl
      have hok2 : ManyOk spec.indexField (l1 ++ old :: l2) m := by
        rw [← hdec]; exact hok
      have hnd2 : (pkeys (l1 ++ old :: l2)).Nodup := by
        rw [← hdec]; exact hnd
      obtain ⟨m2, hm2eq, _⟩ :=
        manyOk_update spec.indexField (idIndexContent s) l1 l2 old r m
          hold hok2 hnd2
      rw [if_neg (Nat.succ_ne_zero q), hpos]
      show routeSpec .update r "id" (.one (idIndexContent s)) _ spec =
        .ok (match updateOneToMany r "id" spec.indexField (idIndexContent s)
            (manyOf spec.index) with
          | .ok m2 => .many m2
          | .error _ => .one [])
      rw [hmany, hm2eq,
        routeSpec_tail_update_eq r (idIndexContent s) _ spec m hrel hidx,
        hm2eq]
      rfl
  obtain ⟨res, hroute, hlen, hq⟩ :=
    routeItem_ok .update r "id" s.indexSpecs _ (fun pos =>
      if pos = 0 then .one (aset (idIndexContent s) (getField r "id") r)
      else match s.indexSpecs[pos]? with
        | some spec2 =>
          match updateOneToMany r "id" spec2.indexField (idIndexContent s)
              (manyOf spec2.index) with
          | .ok m2 => .many m2
          | .error _ => .one []
        | none => .one []) hspec0 hstep
  have hsplice : spliceReplace1 s.items
      (findIndexJS s.items (fun i => getField i "id" == getField r "id")) r =
      l1 ++ r :: l2 := by
    rw [hfi, hdec]
    exact spliceReplace1_decomp l1 l2 old r
  refine ⟨{ items := l1 ++ r :: l2, keyField := "id", indexSpecs := res,
            specIndex := s.specIndex }, l1, l2,
    ?_, ?_, hdec, rfl, hkf.symm, rfl, by rw [hlen]⟩
  · show updateItem s r = _
    unfold updateItem
    simp only [hkf, hold, hsplice]
    rw [hroute]
  · have hq0 : res[0]? = some { name := some "byId", indexField := "id",
                                relationship := ONE_TO_ONE,
                                index := .one (aset (idIndexContent s)
                                  (getField r "id") r) } := by
      rw [hq 0, hspec0]
      rfl
    have hid2 : idIndexContent { items := l1 ++ r :: l2, keyField := "id",
                                 indexSpecs := res,
                                 specIndex := s.specIndex } =
        aset (idIndexContent s) (getField r "id") r :=
      idIndexContent_of_head _ _ _ hq0
    have hnd2 : (pkeys (l1 ++ old :: l2)).Nodup := by
      rw [← hdec]; exact hnd
    refine ⟨rfl, ?_, ?_, ?_, ?_, ?_⟩
    · rw [List.head?_eq_getElem?]
      show res[0]? = _
      rw [hq0, hid2]
    · rw [hid2]
      have := idOk_update l1 l2 old r (idIndexContent s)
        (by rw [← hdec]; exact hInv.2.2.1) hnd2 holdkey
      exact this
    · exact pkeys_nodup_update l1 l2 old r hnd2 holdkey
    · intro spec hmem
      obtain ⟨q2, hq2⟩ := List.mem_iff_getElem?.mp hmem
      rw [List.getElem?_tail] at hq2
      rw [hq q2.succ] at hq2
      cases horig : s.indexSpecs[q2 + 1]? with
      | none => rw [horig] at hq2; simp at hq2
      | some spec2 =>
        rw [horig] at hq2
        simp only [Option.map_some', Option.some.injEq,
          if_neg (Nat.succ_ne_zero q2)] at hq2
        obtain ⟨hrel2, m2, hidx2, hok2⟩ := inv_tail_spec s hInv q2 spec2 horig
        have hmany2 : manyOf spec2.index = m2 := by rw [hidx2]; rfl
        have hok3 : ManyOk spec2.indexField (l1 ++ old :: l2) m2 := by
          rw [← hdec]; exact hok2
        obtain ⟨m3, hm3eq, hm3ok⟩ :=
          manyOk_update spec2.indexField (idIndexContent s) l1 l2 old r m2
            hold hok3 hnd2
        rw [hmany2, hm3eq] at hq2
        subst hq2
        refine ⟨by simpa using hrel2, by simp [isMany], ?_⟩
        show ManyOk spec2.indexField (l1 ++ r :: l2) (manyOf (.many m3))
        show ManyOk spec2.indexField (l1 ++ r :: l2) m3
        exact hm3ok
    · intro p hp
      have := hInv.2.2.2.2.2 p hp
      show (res[p.2]?).map IndexSpec.name = _
      rw [hq p.2]
      cases horig : s.indexSpecs[p.2]? with
      | none => rw [horig] at this; simp at this
      | some spec2 =>
        rw [horig] at this
        simpa using this

theorem deleteItem_inv (s : Store) (r : Rec) (hInv : Inv s) (old : Rec)
    (hold : alookup (idIndexContent s) (getField r "id") = some old)
    (hacc : ∀ spec ∈ s.indexSpecs.tail, getField r spec.indexField =
      getField old spec.indexField) :
    ∃ s2 l1 l2, deleteItem s r = .ok s2 ∧ Inv s2 ∧
      s.items = l1 ++ old :: l2 ∧ s2.items = l1 ++ l2 ∧
      s2.keyField = s.keyField ∧ s2.specIndex = s.specIndex ∧
      s2.indexSpecs.length = s.indexSpecs.length ∧
      (NoEmptyBuckets s → NoEmptyBuckets s2) := by
  have hkf := hInv.1
  have hspec0 := inv_spec0 s hInv
  have hnd := hInv.2.2.2.1
  have holdfacts := hInv.2.2.1.2.1 (getField r "id", old)
    (mem_of_alookup _ _ _ hold)
  have holdmem : old ∈ s.items := holdfacts.1
  have holdkey : getField old "id" = getField r "id" := holdfacts.2
  obtain ⟨l1, l2, hdec, hfi⟩ := master_find s.items old r hnd holdmem holdkey
  have hnd2 : (pkeys (l1 ++ old :: l2)).Nodup := by
    rw [← hdec]; exact hnd
  have hstep : ∀ (pos : Nat) (spec : IndexSpec),
      s.indexSpecs[pos]? = some spec →
      routeSpec .delete r "id" (.one (idIndexContent s)) (pos = 0) spec =
        .ok (if pos = 0 then
          .one (adel (idIndexContent s) (getField r "id"))
        else match s.indexSpecs[pos]? with
          | some spec2 =>
            match deleteOneToMany r "id" spec2.indexField (idIndexContent s)
                (manyOf spec2.index) with
            | .ok m2 => .many m2
            | .error _ => .one []
          | none => .one []) := by
    intro pos spec hpos
    cases pos with
    | zero =>
      rw [hspec0] at hpos
      have hspec : spec = { name := some "byId", indexField := "id",
                            relationship := ONE_TO_ONE,
                            index := .one (idIndexContent s) } := by
        simpa using hpos.symm
      subst hspec
      rw [if_pos rfl]
      exact routeSpec_primary .delete r "id" (idIndexContent s)
        (some "byId") _ rfl (fun _ => ⟨old, hold, holdkey⟩)
    | succ q =>
      obtain ⟨hrel, m, hidx, hok⟩ := inv_tail_spec s hInv q spec hpos
      have hmem2 : spec ∈ s.indexSpecs.tail :=
        List.mem_iff_getElem?.mpr ⟨q, by rw [List.getElem?_tail]; exact hpos⟩
      have hmany : manyOf spec.index = m := by rw [hidx]; rfl
      have hok2 : ManyOk spec.indexField (l1 ++ old :: l2) m := by
        rw [← hdec]; exact hok
      obtain ⟨m2, hm2eq, _, _⟩ :=
        manyOk_delete spec.indexField (idIndexContent s) l1 l2 old r m
          hold (hacc spec hmem2) hok2 hnd2
      rw [if_neg (Nat.succ_ne_zero q), hpos]
      show routeSpec .delete r "id" (.one (idIndexContent s)) _ spec =
        .ok (match deleteOneToMany r "id" spec.indexField (idIndexContent s)
            (manyOf spec.index) with
          | .ok m2 => .many m2
          | .error _ => .one [])
      rw [hmany, hm2eq,
        routeSpec_tail_delete_eq r (idIndexContent s) _ spec m hrel hidx,
        hm2eq]
      rfl
  obtain ⟨res, hroute, hlen, hq⟩ :=
    routeItem_ok .delete r "id" s.indexSpecs _ (fun pos =>
      if pos = 0 then .one (adel (idIndexContent s) (getField r "id"))
      else match s.indexSpecs[pos]? with
        | some spec2 =>
          match deleteOneToMany r "id" spec2.indexField (idIndexContent s)
              (manyOf spec2.index) with
          | .ok m2 => .many m2
          | .error _ => .one []
        | none => .one []) hspec0 hstep
  have hsplice : spliceRemove1 s.items
      (findIndexJS s.items (fun i => getField i "id" == getField r "id")) =
      l1 ++ l2 := by
    rw [hfi, hdec]
    exact spliceRemove1_decomp l1 l2 old
  refine ⟨{ items := l1 ++ l2, keyField := "id", indexSpecs := res,
            specIndex := s.specIndex }, l1, l2,
    ?_, ?_, hdec, rfl, hkf.symm, rfl, by rw [hlen], ?_⟩
  · show deleteItem s r = _
    unfold deleteItem
    simp only [hkf, hold, hsplice]
    rw [hroute]
  · have hq0 : res[0]? = some { name := some "byId", indexField := "id",
                                relationship := ONE_TO_ONE,
                                index := .one (adel (idIndexContent s)
                                  (getField r "id")) } := by
      rw [hq 0, hspec0]
      rfl
    have hid2 : idIndexContent { items := l1 ++ l2, keyField := "id",
                                 indexSpecs := res,
                                 specIndex := s.specIndex } =
        adel (idIndexContent s) (getField r "id") :=
      idIndexContent_of_head _ _ _ hq0
    refine ⟨rfl, ?_, ?_, ?_, ?_, ?_⟩
    · rw [List.head?_eq_getElem?]
      show res[0]? = _
      rw [hq0, hid2]
    · rw [hid2]
      exact idOk_delete l1 l2 old r (idIndexContent s)
        (by rw [← hdec]; exact hInv.2.2.1) hnd2 holdkey
    · exact pkeys_nodup_delete l1 l2 old hnd2
    · intro spec hmem
      obtain ⟨q2, hq2⟩ := List.mem_iff_getElem?.mp hmem
      rw [List.getElem?_tail] at hq2
      rw [hq q2.succ] at hq2
      cases horig : s.indexSpecs[q2 + 1]? with
      | none => rw [horig] at hq2; simp at hq2
      | some spec2 =>
        rw [horig] at hq2
        simp only [Option.map_some', Option.some.injEq,
          if_neg (Nat.succ_ne_zero q2)] at hq2
        obtain ⟨hrel2, m2, hidx2, hok2⟩ := inv_tail_spec s hInv q2 spec2 horig
        have hmem2 : spec2 ∈ s.indexSpecs.tail :=
          List.mem_iff_getElem?.mpr
            ⟨q2, by rw [List.getElem?_tail]; exact horig⟩
        have hmany2 : manyOf spec2.index = m2 := by rw [hidx2]; rfl
        have hok3 : ManyOk spec2.indexField (l1 ++ old :: l2) m2 := by
          rw [← hdec]; exact hok2
        obtain ⟨m3, hm3eq, hm3ok, _⟩ :=
          manyOk_delete spec2.indexField (idIndexContent s) l1 l2 old r m2
            hold (hacc spec2 hmem2) hok3 hnd2
        rw [hmany2, hm3eq] at hq2
        subst hq2
        refine ⟨by simpa using hrel2, by simp [isMany], ?_⟩
        show ManyOk spec2.indexField (l1 ++ l2) (manyOf (.many m3))
        show ManyOk spec2.indexField (l1 ++ l2) m3
        exact hm3ok
    · intro p hp
      have := hInv.2.2.2.2.2 p hp
      show (res[p.2]?).map IndexSpec.name = _
      rw [hq p.2]
      cases horig : s.indexSpecs[p.2]? with
      | none => rw [horig] at this; simp at this
      | some spec2 =>
        rw [horig] at this
        simpa using this
  · intro hneb spec hmem p hp hpe
    obtain ⟨q2, hq2⟩ := List.mem_iff_getElem?.mp hmem
    replace hq2 : res[q2]? = some spec := hq2
    rw [hq q2] at hq2
    cases horig : s.indexSpecs[q2]? with
    | none => rw [horig] at hq2; simp at hq2
    | some spec2 =>
      rw [horig] at hq2
      simp only [Option.map_some', Option.some.injEq] at hq2
      cases q2 with
      | zero =>
        rw [if_pos rfl] at hq2
        subst hq2
        simp [manyOf] at hp
      | succ q3 =>
        rw [if_neg (Nat.succ_ne_zero q3)] at hq2
        obtain ⟨hrel2, m2, hidx2, hok2⟩ :=
          inv_tail_spec s hInv q3 spec2 horig
        have hmem2 : spec2 ∈ s.indexSpecs.tail :=
          List.mem_iff_getElem?.mpr
            ⟨q3, by rw [List.getElem?_tail]; exact horig⟩
        have hmany2 : manyOf spec2.index = m2 := by rw [hidx2]; rfl
        have hok3 : ManyOk spec2.indexField (l1 ++ old :: l2) m2 := by
          rw [← hdec]; exact hok2
        obtain ⟨m3, hm3eq, hm3ok, hm3emp⟩ :=
          manyOk_delete spec2.indexField (idIndexContent s) l1 l2 old r m2
            hold (hacc spec2 hmem2) hok3 hnd2
        rw [hmany2, hm3eq] at hq2
        subst hq2
        simp only [manyOf] at hp
        have hlook3 : alookup m3 p.1 = some [] := by
          rw [← hpe]
          exact alookup_eq_of_mem m3 p hm3ok.2.2 hp
        have hlook2 : alookup m2 p.1 = some [] := hm3emp p.1 hlook3
        have hpmem2 : (p.1, ([] : List Rec)) ∈ m2 :=
          mem_of_alookup _ _ _ hlook2
        have hspec2mem : spec2 ∈ s.indexSpecs :=
          List.mem_iff_getElem?.mpr ⟨q3 + 1, horig⟩
        have := hneb spec2 hspec2mem (p.1, []) (by rw [hmany2]; exact hpmem2)
        exact this rfl

theorem rebuildContent_primary (items : List Rec) (nm : Option String)
    (m : List (Val × Rec)) :
    rebuildContent items { name := nm, indexField := "id",
                           relationship := ONE_TO_ONE, index := .one m } =
      .ok (.one (rebuildOneToOne items "id")) := by
  simp [rebuildContent]

theorem rebuildContent_tail (items : List Rec) (spec : IndexSpec)
    (hrel : spec.relationship = ONE_TO_MANY) :
    rebuildContent items spec =
      .ok (.many (rebuildOneToMany items spec.indexField)) := by
  unfold rebuildContent
  rw [if_neg (by rw [hrel]; norm_num [ONE_TO_ONE, ONE_TO_MANY]),
    if_pos hrel]

theorem rebuildAll_inv (s : Store) (hInv : Inv s) :
    ∃ s2, rebuildAll s = .ok s2 ∧ Inv s2 ∧ s2.items = s.items ∧
      s2.keyField = s.keyField ∧ s2.specIndex = s.specIndex ∧
      s2.indexSpecs.length = s.indexSpecs.length := by
  have hspec0 := inv_spec0 s hInv
  have hnd := hInv.2.2.2.1
  have hstep : ∀ (pos : Nat) (spec : IndexSpec),
      s.indexSpecs[pos]? = some spec →
      rebuildContent s.items spec = .ok
        (if pos = 0 then .one (rebuildOneToOne s.items "id")
         else match s.indexSpecs[pos]? with
          | some spec2 => .many (rebuildOneToMany s.items spec2.indexField)
          | none => .one []) := by
    intro pos spec hpos
    cases pos with
    | zero =>
      rw [hspec0] at hpos
      have hspec : spec = { name := some "byId", indexField := "id",
                            relationship := ONE_TO_ONE,
                            index := .one (idIndexContent s) } := by
        simpa using hpos.symm
      subst hspec
      rw [if_pos rfl]
      exact rebuildContent_primary s.items (some "byId") (idIndexContent s)
    | succ q =>
      obtain ⟨hrel, m, hidx, _⟩ := inv_tail_spec s hInv q spec hpos
      rw [if_neg (Nat.succ_ne_zero q), hpos]
      show rebuildContent s.items spec =
        .ok (.many (rebuildOneToMany s.items spec.indexField))
      exact rebuildContent_tail s.items spec hrel
  obtain ⟨s2, hres, hitems, hkf2, hsi, hlen, hq⟩ :=
    rebuildAll_chars s (fun pos =>
      if pos = 0 then .one (rebuildOneToOne s.items "id")
      else match s.indexSpecs[pos]? with
        | some spec2 => .many (rebuildOneToMany s.items spec2.indexField)
        | none => .one []) hstep
  refine ⟨s2, hres, ?_, hitems, hkf2, hsi, hlen⟩
  have hq0 : s2.indexSpecs[0]? =
      some (⟨some "byId", "id", ONE_TO_ONE,
        .one (rebuildOneToOne s.items "id")⟩ : IndexSpec) := by
    rw [hq 0, hspec0]
    rfl
  have hid2 : idIndexContent s2 = rebuildOneToOne s.items "id" :=
    idIndexContent_of_head _ _ _ hq0
  refine ⟨by rw [hkf2]; exact hInv.1, ?_, ?_, ?_, ?_, ?_⟩
  · rw [List.head?_eq_getElem?, hq0, hid2]
  · rw [hid2, hitems]
    exact rebuildOneToOne_IdOk s.items hnd
  · rw [hitems]
    exact hnd
  · intro spec hmem
    obtain ⟨q2, hq2⟩ := List.mem_iff_getElem?.mp hmem
    rw [List.getElem?_tail] at hq2
    rw [hq q2.succ] at hq2
    cases horig : s.indexSpecs[q2 + 1]? with
    | none => rw [horig] at hq2; simp at hq2
    | some spec2 =>
      rw [horig] at hq2
      simp only [Option.map_some', Option.some.injEq,
        if_neg (Nat.succ_ne_zero q2)] at hq2
      obtain ⟨hrel2, m2, hidx2, _⟩ := inv_tail_spec s hInv q2 spec2 horig
      subst hq2
      refine ⟨by simpa using hrel2, by simp [isMany], ?_⟩
      show ManyOk spec2.indexField s2.items
        (manyOf (.many (rebuildOneToMany s.items spec2.indexField)))
      show ManyOk spec2.indexField s2.items
        (rebuildOneToMany s.items spec2.indexField)
      rw [hitems]
      exact rebuildOneToMany_ManyOk s.items spec2.indexField
  · intro p hp
    rw [hsi] at hp
    have := hInv.2.2.2.2.2 p hp
    rw [hq p.2]
    cases horig : s.indexSpecs[p.2]? with
    | none => rw [horig] at this; simp at this
    | some spec2 =>
      rw [horig] at this
      simpa using this

theorem rebuildAt_inv (s : Store) (pos : Nat) (hInv : Inv s)
    (spec : IndexSpec) (hpos : s.indexSpecs[pos]? = some spec) :
    ∃ s2, rebuildAt s pos = .ok s2 ∧ Inv s2 ∧ s2.items = s.items ∧
      s2.keyField = s.keyField ∧ s2.specIndex = s.specIndex ∧
      s2.indexSpecs.length = s.indexSpecs.length := by
  have hspec0 := inv_spec0 s hInv
  have hnd := hInv.2.2.2.1
  have hplen : pos < s.indexSpecs.length := (List.getElem?_eq_some.mp hpos).1
  cases pos with
  | zero =>
    rw [hspec0] at hpos
    have hspec : spec = { name := some "byId", indexField := "id",
                          relationship := ONE_TO_ONE,
                          index := .one (idIndexContent s) } := by
      simpa using hpos.symm
    subst hspec
    refine ⟨{ s with indexSpecs := s.indexSpecs.set 0
                       ⟨some "byId", "id", ONE_TO_ONE,
                         .one (rebuildOneToOne s.items "id")⟩ },
      ?_, ?_, rfl, rfl, rfl, by rw [List.length_set]⟩
    · simp only [rebuildAt, hspec0, rebuildContent_primary]
    · have hq0 : (s.indexSpecs.set 0
          ⟨some "byId", "id", ONE_TO_ONE,
            .one (rebuildOneToOne s.items "id")⟩)[0]? =
          some (⟨some "byId", "id", ONE_TO_ONE,
            .one (rebuildOneToOne s.items "id")⟩ : IndexSpec) :=
        List.getElem?_set_self hplen
      have hid2 : idIndexContent
          { s with indexSpecs := s.indexSpecs.set 0
                     ⟨some "byId", "id", ONE_TO_ONE,
                       .one (rebuildOneToOne s.items "id")⟩ } =
          rebuildOneToOne s.items "id" :=
        idIndexContent_of_head _ _ _ hq0
      refine ⟨hInv.1, ?_, ?_, hInv.2.2.2.1, ?_, ?_⟩
      · rw [List.head?_eq_getElem?]
        show (s.indexSpecs.set 0 _)[0]? = _
        rw [hq0, hid2]
      · rw [hid2]
        exact rebuildOneToOne_IdOk s.items hnd
      · intro spec2 hmem
        obtain ⟨q2, hq2⟩ := List.mem_iff_getElem?.mp hmem
        rw [List.getElem?_tail] at hq2
        rw [List.getElem?_set_ne (Nat.succ_ne_zero q2).symm] at hq2
        exact hInv.2.2.2.2.1 spec2
          (List.mem_iff_getElem?.mpr ⟨q2, by
            rw [List.getElem?_tail]; exact hq2⟩)
      · intro p hp
        have := hInv.2.2.2.2.2 p hp
        by_cases hp0 : p.2 = 0
        · rw [hp0]
          show ((s.indexSpecs.set 0 _)[0]?).map IndexSpec.name = _
          rw [hq0]
          rw [hp0, hspec0] at this
          simpa using this
        · show ((s.indexSpecs.set 0 _)[p.2]?).map IndexSpec.name = _
          rw [List.getElem?_set_ne (fun he => hp0 he.symm)]
          exact this
  | succ q =>
    obtain ⟨hrel, m, hidx, _⟩ := inv_tail_spec s hInv q spec hpos
    refine ⟨{ s with indexSpecs := s.indexSpecs.set (q + 1) { spec with index := IdxContent.many (rebuildOneToMany s.items spec.indexField) } },
      ?_, ?_, rfl, rfl, rfl, by rw [List.length_set]⟩
    · simp only [rebuildAt, hpos, rebuildContent_tail s.items spec hrel]
    · have hq0 : (s.indexSpecs.set (q + 1) { spec with index := IdxContent.many (rebuildOneToMany s.items spec.indexField) })[0]? =
          s.indexSpecs[0]? :=
        List.getElem?_set_ne (Nat.succ_ne_zero q)
      have hid2 : idIndexContent { s with indexSpecs := s.indexSpecs.set (q + 1) { spec with index := IdxContent.many (rebuildOneToMany s.items spec.indexField) } } =
          idIndexContent s := by
        unfold idIndexContent
        rw [List.head?_eq_getElem?, List.head?_eq_getElem?, hq0]
      refine ⟨hInv.1, ?_, ?_, hInv.2.2.2.1, ?_, ?_⟩
      · rw [List.head?_eq_getElem?]
        show (s.indexSpecs.set _ _)[0]? = _
        rw [hq0, hid2, ← List.head?_eq_getElem?]
        exact hInv.2.1
      · rw [hid2]
        exact hInv.2.2.1
      · intro spec2 hmem
        obtain ⟨q2, hq2⟩ := List.mem_iff_getElem?.mp hmem
        rw [List.getElem?_tail] at hq2
        by_cases hqq : q + 1 = q2 + 1
        · rw [← hqq] at hq2
          rw [List.getElem?_set_self hplen] at hq2
          simp only [Option.some.injEq] at hq2
          subst hq2
          refine ⟨by simpa using hrel, by simp [isMany], ?_⟩
          show ManyOk spec.indexField s.items
            (manyOf (.many (rebuildOneToMany s.items spec.indexField)))
          show ManyOk spec.indexField s.items
            (rebuildOneToMany s.items spec.indexField)
          exact rebuildOneToMany_ManyOk s.items spec.indexField
        · rw [List.getElem?_set_ne hqq] at hq2
          exact hInv.2.2.2.2.1 spec2
            (List.mem_iff_getElem?.mpr ⟨q2, by
              rw [List.getElem?_tail]; exact hq2⟩)
      · intro p hp
        have := hInv.2.2.2.2.2 p hp
        by_cases hp0 : q + 1 = p.2
        · show ((s.indexSpecs.set (q+1) _)[p.2]?).map IndexSpec.name = _
          rw [← hp0, List.getElem?_set_self hplen]
          rw [← hp0, hpos] at this
          simpa using this
        · show ((s.indexSpecs.set (q+1) _)[p.2]?).map IndexSpec.name = _
          rw [List.getElem?_set_ne hp0]
          exact this

theorem rebuildByName_inv (s : Store) (name : String) (hInv : Inv s)
    (pos : Nat) (hname : alookup s.specIndex name = some pos) :
    ∃ s2, rebuildByName s name = .ok s2 ∧ Inv s2 ∧ s2.items = s.items ∧
      s2.keyField = s.keyField ∧ s2.specIndex = s.specIndex ∧
      s2.indexSpecs.length = s.indexSpecs.length := by
  have hsio := hInv.2.2.2.2.2 (name, pos) (mem_of_alookup _ _ _ hname)
  cases hpos : s.indexSpecs[pos]? with
  | none => rw [hpos] at hsio; simp at hsio
  | some spec =>
    obtain ⟨s2, hres, hrest⟩ := rebuildAt_inv s pos hInv spec hpos
    refine ⟨s2, ?_, hrest⟩
    unfold rebuildByName
    rw [hname]
    exact hres

/-! ### Failure analysis of the mutating operations -/

theorem updateItem_none (s : Store) (r : Rec)
    (hnone : alookup (idIndexContent s) (getField r s.keyField) = none) :
    updateItem s r = .error ("No such item found.", s) := by
  unfold updateItem
  rw [hnone]

theorem deleteItem_none (s : Store) (r : Rec)
    (hnone : alookup (idIndexContent s) (getField r s.keyField) = none) :
    deleteItem s r = .error ("No such item found.", s) := by
  unfold deleteItem
  rw [hnone]

theorem updateItem_err (s : Store) (r : Rec) (hInv : Inv s) (e : String)
    (s2 : Store) (herr : updateItem s r = .error (e, s2)) : s2 = s := by
  cases hlook : alookup (idIndexContent s) (getField r "id") with
  | none =>
    have := updateItem_none s r (by rw [hInv.1]; exact hlook)
    rw [this] at herr
    simpa using (Prod.mk.injEq _ _ _ _ ▸ (Except.error.inj herr)).2.symm
  | some old =>
    obtain ⟨s3, l1, l2, hok, _⟩ := updateItem_inv s r hInv old hlook
    rw [hok] at herr
    cases herr

theorem deleteOneToMany_isOk (F : String) (idIdx : List (Val × Rec))
    (old r : Rec) (m : List (Val × List Rec)) (bl : List Rec)
    (hold : alookup idIdx (getField r "id") = some old)
    (hbl : alookup m (getField old F) = some bl) :
    ∃ m2, deleteOneToMany r "id" F idIdx m = .ok m2 := by
  by_cases h : (spliceRemove1 bl
      (findIndexJS bl (fun i => getField i "id" == getField old "id"))).length = 0
  · exact ⟨_, by
      rw [deleteOneToMany_run F idIdx old r m bl hold hbl]
      dsimp only
      rw [if_pos h]⟩
  · exact ⟨_, by
      rw [deleteOneToMany_run F idIdx old r m bl hold hbl]
      dsimp only
      rw [if_neg h]⟩

theorem deleteItem_succeeds (s : Store) (r : Rec) (hInv : Inv s) (old : Rec)
    (hold : alookup (idIndexContent s) (getField r "id") = some old) :
    ∃ s2, deleteItem s r = .ok s2 := by
  have hkf := hInv.1
  have hspec0 := inv_spec0 s hInv
  have holdfacts := hInv.2.2.1.2.1 (getField r "id", old)
    (mem_of_alookup _ _ _ hold)
  have holdmem : old ∈ s.items := holdfacts.1
  have holdkey : getField old "id" = getField r "id" := holdfacts.2
  have hstep : ∀ (pos : Nat) (spec : IndexSpec),
      s.indexSpecs[pos]? = some spec →
      routeSpec .delete r "id" (.one (idIndexContent s)) (pos = 0) spec =
        .ok (if pos = 0 then
          .one (adel (idIndexContent s) (getField r "id"))
        else match s.indexSpecs[pos]? with
          | some spec2 =>
            match deleteOneToMany r "id" spec2.indexField (idIndexContent s)
                (manyOf spec2.index) with
            | .ok m2 => .many m2
            | .error _ => .one []
          | none => .one []) := by
    intro pos spec hpos
    cases pos with
    | zero =>
      rw [hspec0] at hpos
      have hspec : spec = { name := some "byId", indexField := "id",
                            relationship := ONE_TO_ONE,
                            index := .one (idIndexContent s) } := by
        simpa using hpos.symm
      subst hspec
      rw [if_pos rfl]
      exact routeSpec_primary .delete r "id" (idIndexContent s)
        (some "byId") _ rfl (fun _ => ⟨old, hold, holdkey⟩)
    | succ q =>
      obtain ⟨hrel, m, hidx, hok⟩ := inv_tail_spec s hInv q spec hpos
      have hmany : manyOf spec.index = m := by rw [hidx]; rfl
      obtain ⟨bl, hbl⟩ := Option.isSome_iff_exists.mp (hok.2.1 old holdmem)
      obtain ⟨m2, hm2eq⟩ := deleteOneToMany_isOk spec.indexField
        (idIndexContent s) old r m bl hold hbl
      rw [if_neg (Nat.succ_ne_zero q), hpos]
      show routeSpec .delete r "id" (.one (idIndexContent s)) _ spec =
        .ok (match deleteOneToMany r "id" spec.indexField (idIndexContent s)
            (manyOf spec.index) with
          | .ok m2 => .many m2
          | .error _ => .one [])
      rw [hmany, hm2eq,
        routeSpec_tail_delete_eq r (idIndexContent s) _ spec m hrel hidx,
        hm2eq]
      rfl
  obtain ⟨res, hroute, _, _⟩ :=
    routeItem_ok .delete r "id" s.indexSpecs _ (fun pos =>
      if pos = 0 then .one (adel (idIndexContent s) (getField r "id"))
      else match s.indexSpecs[pos]? with
        | some spec2 =>
          match deleteOneToMany r "id" spec2.indexField (idIndexContent s)
              (manyOf spec2.index) with
          | .ok m2 => .many m2
          | .error _ => .one []
        | none => .one []) hspec0 hstep
  refine ⟨{ items := spliceRemove1 s.items
              (findIndexJS s.items
                (fun i => getField i "id" == getField r "id")),
            keyField := "id", indexSpecs := res,
            specIndex := s.specIndex }, ?_⟩
  show deleteItem s r = _
  unfold deleteItem
  simp only [hkf, hold]
  rw [hroute]

theorem deleteItem_err (s : Store) (r : Rec) (hInv : Inv s) (e : String)
    (s2 : Store) (herr : deleteItem s r = .error (e, s2)) : s2 = s := by
  cases hlook : alookup (idIndexContent s) (getField r "id") with
  | none =>
    have := deleteItem_none s r (by rw [hInv.1]; exact hlook)
    rw [this] at herr
    simpa using (Prod.mk.injEq _ _ _ _ ▸ (Except.error.inj herr)).2.symm
  | some old =>
    obtain ⟨s3, hok⟩ := deleteItem_succeeds s r hInv old hlook
    rw [hok] at herr
    cases herr

theorem addItem_any (s : Store) (r : Rec) (hInv : Inv s) :
    ∃ s2, addItem s r = .ok s2 ∧ s2.items = s.items ++ [r] := by
  have hspec0 := inv_spec0 s hInv
  have hstep : ∀ (pos : Nat) (spec : IndexSpec),
      s.indexSpecs[pos]? = some spec →
      routeSpec .add r s.keyField (.one (idIndexContent s)) (pos = 0) spec =
        .ok (if pos = 0 then
          .one (aset (idIndexContent s) (getField r "id") r)
        else match s.indexSpecs[pos]? with
          | some spec2 =>
            .many (addOneToMany r spec2.indexField (manyOf spec2.index))
          | none => .one []) := by
    intro pos spec hpos
    cases pos with
    | zero =>
      rw [hspec0] at hpos
      have hspec : spec = { name := some "byId", indexField := "id",
                            relationship := ONE_TO_ONE,
                            index := .one (idIndexContent s) } := by
        simpa using hpos.symm
      subst hspec
      rw [if_pos rfl]
      exact routeSpec_primary .add r s.keyField (idIndexContent s)
        (some "byId") _ rfl (by intro h; cases h)
    | succ q =>
      obtain ⟨hrel, m, hidx, _⟩ := inv_tail_spec s hInv q spec hpos
      rw [if_neg (Nat.succ_ne_zero q), hpos]
      have hmany : manyOf spec.index = m := by rw [hidx]; rfl
      show routeSpec .add r s.keyField (.one (idIndexContent s)) _ spec =
        .ok (.many (addOneToMany r spec.indexField (manyOf spec.index)))
      rw [hmany]
      exact routeSpec_tail_add r s.keyField _ _ spec m hrel hidx
  obtain ⟨res, hroute, _, _⟩ :=
    routeItem_ok .add r s.keyField s.indexSpecs _ (fun pos =>
      if pos = 0 then .one (aset (idIndexContent s) (getField r "id") r)
      else match s.indexSpecs[pos]? with
        | some spec2 =>
          .many (addOneToMany r spec2.indexField (manyOf spec2.index))
        | none => .one []) hspec0 hstep
  refine ⟨{ items := s.items ++ [r], keyField := s.keyField,
            indexSpecs := res, specIndex := s.specIndex }, ?_, rfl⟩
  show addItem s r = _
  unfold addItem
  simp only []
  rw [hroute]

/-! ### The invariant yields claim C1's consistency property -/

theorem inv_consistent (s : Store) (hInv : Inv s) : Consistent s := by
  intro r hr spec hmem
  have hkf := hInv.1
  obtain ⟨q, hq⟩ := List.mem_iff_getElem?.mp hmem
  cases q with
  | zero =>
    rw [inv_spec0 s hInv] at hq
    have hspec : spec = { name := some "byId", indexField := "id",
                          relationship := ONE_TO_ONE,
                          index := .one (idIndexContent s) } := by
      simpa using hq.symm
    subst hspec
    constructor
    · intro _
      show alookup (oneOf (.one (idIndexContent s))) (getField r "id") = some r
      exact hInv.2.2.1.1 r hr
    · intro habs
      exact absurd habs (by norm_num [ONE_TO_ONE, ONE_TO_MANY])
  | succ q2 =>
    obtain ⟨hrel, m, hidx, hok⟩ := inv_tail_spec s hInv q2 spec hq
    constructor
    · intro habs
      rw [hrel] at habs
      exact absurd habs (by norm_num [ONE_TO_ONE, ONE_TO_MANY])
    · intro _
      have hmany : manyOf spec.index = m := by rw [hidx]; rfl
      rw [hmany, hkf]
      have hperm := manyOk_perm hok (getField r spec.indexField)
      rw [List.Perm.countP_eq _ hperm, List.countP_filter]
      exact countP_pkey_one s.items hInv.2.2.2.1 r hr
        (fun x => getField x spec.indexField == getField r spec.indexField)
        (by simp)

/-! ### Reference-level getter analysis (copy safety) -/

theorem mem_gAddrs_items (g : GStore) (a : Nat) (ha : a ∈ g.items) :
    a ∈ gAddrs g := by
  unfold gAddrs
  exact List.mem_append_left _ ha

theorem mem_gAddrs_idx (g : GStore) (spec : GSpec) (hs : spec ∈ g.indexSpecs)
    (a : Nat) (ha : a ∈ gIdxAddrs spec.index) : a ∈ gAddrs g := by
  unfold gAddrs
  refine List.mem_append_right _ ?_
  rw [List.mem_flatten]
  exact ⟨gIdxAddrs spec.index,
    List.mem_map_of_mem (fun spec => gIdxAddrs spec.index) hs, ha⟩

theorem mem_gAddrs_of_idIndex (g : GStore) (id : Val) (a : Nat)
    (h : (id, a) ∈ gIdIndex g) : a ∈ gAddrs g := by
  unfold gIdIndex at h
  cases hh : g.indexSpecs.head? with
  | none => rw [hh] at h; simp at h
  | some spec =>
    simp only [hh] at h
    have hs : spec ∈ g.indexSpecs := List.mem_of_mem_head? hh
    cases hidx : spec.index with
    | one m =>
      simp only [hidx] at h
      refine mem_gAddrs_idx g spec hs a ?_
      rw [hidx]
      exact List.mem_map_of_mem Prod.snd h
    | many m => simp only [hidx] at h; simp at h

theorem gAt_set_fresh (g : GStore) (t : List Rec) (a1 : Nat)
    (ha1 : g.heap.length ≤ a1) (v : Rec) (a : Nat) (ha : a < g.heap.length) :
    gAt (gHeapSet { g with heap := g.heap ++ t } a1 v) a = gAt g a := by
  unfold gAt gHeapSet
  show ((g.heap ++ t).set a1 v).getD a [] = g.heap.getD a []
  rw [List.getD_eq_getElem?_getD, List.getD_eq_getElem?_getD,
    List.getElem?_set_ne (by omega), List.getElem?_append_left ha]

theorem gObsId_set_fresh (g : GStore) (hwf : GWF g) (t : List Rec) (a1 : Nat)
    (ha1 : g.heap.length ≤ a1) (v : Rec) (id : Val) :
    gObsId (gHeapSet { g with heap := g.heap ++ t } a1 v) id = gObsId g id := by
  unfold gObsId
  have hidx : gIdIndex (gHeapSet { g with heap := g.heap ++ t } a1 v) =
      gIdIndex g := rfl
  rw [hidx]
  cases hl : alookup (gIdIndex g) id with
  | none => rfl
  | some a =>
    simp only [Option.map_some']
    rw [gAt_set_fresh g t a1 ha1 v a
      (hwf a (mem_gAddrs_of_idIndex g id a (mem_of_alookup _ _ _ hl)))]

theorem gObsItems_set_fresh (g : GStore) (hwf : GWF g) (t : List Rec)
    (a1 : Nat) (ha1 : g.heap.length ≤ a1) (v : Rec) :
    gObsItems (gHeapSet { g with heap := g.heap ++ t } a1 v) = gObsItems g := by
  unfold gObsItems
  have hit : (gHeapSet { g with heap := g.heap ++ t } a1 v).items = g.items :=
    rfl
  rw [hit]
  refine List.map_congr_left ?_
  intro a ha
  exact gAt_set_fresh g t a1 ha1 v a (hwf a (mem_gAddrs_items g a ha))

theorem gObsByIndex_set_fresh (g : GStore) (hwf : GWF g) (t : List Rec)
    (a1 : Nat) (ha1 : g.heap.length ≤ a1) (v : Rec) (nm : String) (k : Val) :
    gObsByIndex (gHeapSet { g with heap := g.heap ++ t } a1 v) nm k =
      gObsByIndex g nm k := by
  unfold gObsByIndex
  have hsi : (gHeapSet { g with heap := g.heap ++ t } a1 v).specIndex =
      g.specIndex := rfl
  have hsp : (gHeapSet { g with heap := g.heap ++ t } a1 v).indexSpecs =
      g.indexSpecs := rfl
  rw [hsi, hsp]
  cases h1 : alookup g.specIndex nm with
  | none => rfl
  | some pos =>
    simp only [h1]
    cases h2 : g.indexSpecs[pos]? with
    | none => rfl
    | some spec =>
      simp only [h2]
      have hs : spec ∈ g.indexSpecs := List.mem_iff_getElem?.mpr ⟨pos, h2⟩
      cases hidx : spec.index with
      | one m =>
        simp only [hidx]
        cases h3 : alookup m k with
        | none => rfl
        | some a =>
          simp only [h3, Option.map_some']
          rw [gAt_set_fresh g t a1 ha1 v a (hwf a (mem_gAddrs_idx g spec hs a
            (by rw [hidx]
                exact List.mem_map_of_mem Prod.snd (mem_of_alookup _ _ _ h3))))]
      | many m =>
        simp only [hidx]
        cases h3 : alookup m k with
        | none => rfl
        | some bl =>
          simp only [h3, Option.getD_some]
          have hbl : ∀ a ∈ bl,
              gAt (gHeapSet { g with heap := g.heap ++ t } a1 v) a = gAt g a := by
            intro a ha
            refine gAt_set_fresh g t a1 ha1 v a
              (hwf a (mem_gAddrs_idx g spec hs a ?_))
            rw [hidx]
            show a ∈ (m.map Prod.snd).flatten
            rw [List.mem_flatten]
            exact ⟨bl, List.mem_map_of_mem Prod.snd (mem_of_alookup _ _ _ h3),
              ha⟩
          rw [List.map_congr_left hbl]

theorem cloneRecs_cons (h : List Rec) (a : Nat) (rest : List Nat) :
    cloneRecs h (a :: rest) =
      ((cloneRecs (h ++ [h.getD a []]) rest).1,
        h.length :: (cloneRecs (h ++ [h.getD a []]) rest).2) := rfl

theorem cloneRecs_spec (as : List Nat) : ∀ (h : List Rec),
    (∃ t, (cloneRecs h as).1 = h ++ t) ∧
    ∀ a1 ∈ (cloneRecs h as).2, h.length ≤ a1 := by
  induction as with
  | nil =>
    intro h
    refine ⟨⟨[], by simp [cloneRecs]⟩, ?_⟩
    intro a1 ha
    simp [cloneRecs] at ha
  | cons a rest ih =>
    intro h
    rw [cloneRecs_cons]
    obtain ⟨⟨t, ht⟩, hmem⟩ := ih (h ++ [h.getD a []])
    refine ⟨⟨[h.getD a []] ++ t, ?_⟩, ?_⟩
    · show (cloneRecs (h ++ [h.getD a []]) rest).1 = _
      rw [ht, List.append_assoc]
    · intro a1 ha1
      rcases List.mem_cons.mp ha1 with heq | hmem2
      · exact le_of_eq heq.symm
      · have := hmem a1 hmem2
        simp only [List.length_append, List.length_cons, List.length_nil]
          at this
        omega

theorem getItemG_char (g : GStore) (id : Val) (a1 : Nat) (g1 : GStore)
    (h : getItemG g id = (some a1, g1)) :
    g.heap.length ≤ a1 ∧ ∃ t, g1 = { g with heap := g.heap ++ t } := by
  unfold getItemG at h
  cases hl : alookup (gIdIndex g) id with
  | none => simp only [hl] at h; simp at h
  | some a =>
    simp only [hl, cloneRec] at h
    have h1 : some g.heap.length = some a1 := congrArg Prod.fst h
    have h2 : ({ g with heap := g.heap ++ [g.heap.getD a []] } : GStore) = g1 :=
      congrArg Prod.snd h
    exact ⟨le_of_eq (Option.some.inj h1), ⟨[g.heap.getD a []], h2.symm⟩⟩

theorem getItemsG_char (g : GStore) (as : List Nat) (g1 : GStore)
    (h : getItemsG g = (as, g1)) :
    (∀ a1 ∈ as, g.heap.length ≤ a1) ∧
    ∃ t, g1 = { g with heap := g.heap ++ t } := by
  have hdef : getItemsG g = ((cloneRecs g.heap g.items).2,
      { g with heap := (cloneRecs g.heap g.items).1 }) := rfl
  rw [hdef] at h
  obtain ⟨⟨t, ht⟩, hmem⟩ := cloneRecs_spec g.items g.heap
  have h1 : (cloneRecs g.heap g.items).2 = as := congrArg Prod.fst h
  have h2 : ({ g with heap := (cloneRecs g.heap g.items).1 } : GStore) = g1 :=
    congrArg Prod.snd h
  refine ⟨?_, ⟨t, ?_⟩⟩
  · intro a1 ha1
    exact hmem a1 (h1 ▸ ha1)
  · rw [← h2, ht]

theorem getByIndexG_char (g : GStore) (nm : String) (k : Val) (res : GbiRes)
    (g1 : GStore) (h : getByIndexG g nm k = some (res, g1)) :
    (∀ a1 ∈ gbiAddrs res, g.heap.length ≤ a1) ∧
    ∃ t, g1 = { g with heap := g.heap ++ t } := by
  unfold getByIndexG at h
  cases h1 : alookup g.specIndex nm with
  | none => simp only [h1] at h; cases h
  | some pos =>
    simp only [h1] at h
    cases h2 : g.indexSpecs[pos]? with
    | none => simp only [h2] at h; cases h
    | some spec =>
      simp only [h2] at h
      cases hidx : spec.index with
      | one m =>
        simp only [hidx] at h
        cases h3 : alookup m k with
        | none =>
          simp only [h3, Option.some.injEq, Prod.mk.injEq] at h
          obtain ⟨hres, hg1⟩ := h
          subst hres
          refine ⟨fun a1 ha1 => by simp [gbiAddrs] at ha1, ⟨[], ?_⟩⟩
          rw [← hg1]
          simp
        | some a =>
          simp only [h3, cloneRec, Option.some.injEq, Prod.mk.injEq] at h
          obtain ⟨hres, hg1⟩ := h
          subst hres
          refine ⟨?_, ⟨[g.heap.getD a []], hg1.symm⟩⟩
          intro a1 ha1
          simp only [gbiAddrs, List.mem_singleton] at ha1
          exact le_of_eq ha1.symm
      | many m =>
        simp only [hidx] at h
        cases h3 : alookup m k with
        | none =>
          simp only [h3, Option.some.injEq, Prod.mk.injEq] at h
          obtain ⟨hres, hg1⟩ := h
          subst hres
          refine ⟨fun a1 ha1 => by simp [gbiAddrs] at ha1, ⟨[], ?_⟩⟩
          rw [← hg1]
          simp
        | some bl =>
          simp only [h3, Option.some.injEq, Prod.mk.injEq] at h
          obtain ⟨⟨t, ht⟩, hmem⟩ := cloneRecs_spec bl g.heap
          obtain ⟨hres, hg1⟩ := h
          subst hres
          refine ⟨?_, ⟨t, ?_⟩⟩
          · intro a1 ha1
            exact hmem a1 ha1
          · rw [← hg1, ht]

/-! ### Identity-level frame lemmas (index handles, the master array) -/

theorem addItem_specIndex (s : Store) (r : Rec) :
    (afterCall (addItem s r)).specIndex = s.specIndex := by
  unfold addItem afterCall
  dsimp only
  cases h : routeItem .add r s.keyField s.indexSpecs with
  | ok specs => simp only [h]
  | error e =>
    obtain ⟨e1, specs⟩ := e
    simp only [h]

theorem updateItem_specIndex (s : Store) (r : Rec) :
    (afterCall (updateItem s r)).specIndex = s.specIndex := by
  unfold updateItem afterCall
  cases hl : alookup (idIndexContent s) (getField r s.keyField) with
  | none => simp only [hl]
  | some old =>
    simp only [hl]
    cases h : routeItem .update r s.keyField s.indexSpecs with
    | ok specs => simp only [h]
    | error e =>
      obtain ⟨e1, specs⟩ := e
      simp only [h]

theorem deleteItem_specIndex (s : Store) (r : Rec) :
    (afterCall (deleteItem s r)).specIndex = s.specIndex := by
  unfold deleteItem afterCall
  cases hl : alookup (idIndexContent s) (getField r s.keyField) with
  | none => simp only [hl]
  | some old =>
    simp only [hl]
    cases h : routeItem .delete r s.keyField s.indexSpecs with
    | ok specs => simp only [h]
    | error e =>
      obtain ⟨e1, specs⟩ := e
      simp only [h]

theorem rebuildAt_specIndex (s : Store) (pos : Nat) :
    (afterCall (rebuildAt s pos)).specIndex = s.specIndex := by
  unfold rebuildAt afterCall
  cases h : s.indexSpecs[pos]? with
  | none => simp only [h]
  | some spec =>
    simp only [h]
    cases h2 : rebuildContent s.items spec with
    | ok c => simp only [h2]
    | error e => simp only [h2]

theorem rebuildByName_specIndex (s : Store) (name : String) :
    (afterCall (rebuildByName s name)).specIndex = s.specIndex := by
  unfold rebuildByName
  cases hl : alookup s.specIndex name with
  | none => simp only [hl]; rfl
  | some pos =>
    simp only [hl]
    exact rebuildAt_specIndex s pos

theorem rebuildAll_specIndex (s : Store) :
    (afterCall (rebuildAll s)).specIndex = s.specIndex := by
  unfold rebuildAll afterCall
  cases h : rebuildAllAux s.items s.indexSpecs
      (List.range s.indexSpecs.length).reverse with
  | ok specs => simp only [h]
  | error e =>
    obtain ⟨e1, specs⟩ := e
    simp only [h]

theorem rebuildAll_items (s : Store) :
    (afterCall (rebuildAll s)).items = s.items := by
  unfold rebuildAll afterCall
  cases h : rebuildAllAux s.items s.indexSpecs
      (List.range s.indexSpecs.length).reverse with
  | ok specs => simp only [h]
  | error e =>
    obtain ⟨e1, specs⟩ := e
    simp only [h]

theorem addIndex_specIndex (s : Store) (nm : String) (f : String) (rel : Nat) :
    (afterCall (addIndex s (some nm) f rel)).specIndex =
      aset s.specIndex nm s.indexSpecs.length := by
  unfold addIndex
  dsimp only
  rw [rebuildAt_specIndex]

theorem rApply_frame (rs : RStore) (op : ROp) :
    (rApply rs op).base.specIndex = rs.base.specIndex ∧
    (rApply rs op).idxIds = rs.idxIds := by
  cases op with
  | addItem r => exact ⟨addItem_specIndex rs.base r, rfl⟩
  | updateItem r => exact ⟨updateItem_specIndex rs.base r, rfl⟩
  | deleteItem r => exact ⟨deleteItem_specIndex rs.base r, rfl⟩
  | rebuild name => exact ⟨rebuildByName_specIndex rs.base name, rfl⟩
  | rebuildAll => exact ⟨rebuildAll_specIndex rs.base, rfl⟩
  | truncate => exact ⟨rebuildAll_specIndex { rs.base with items := [] }, rfl⟩

theorem rRun_frame (ops : List ROp) : ∀ rs : RStore,
    (rRun rs ops).base.specIndex = rs.base.specIndex ∧
    (rRun rs ops).idxIds = rs.idxIds := by
  induction ops with
  | nil => intro rs; exact ⟨rfl, rfl⟩
  | cons op rest ih =>
    intro rs
    have h1 := rApply_frame rs op
    have h2 := ih (rApply rs op)
    exact ⟨h2.1.trans h1.1, h2.2.trans h1.2⟩

/-! ## The claims -/

/-- C1 (amended): on an invariant-holding store, every operation whose
call discipline is respected — a fresh key on `addItem`, an existing
key on `updateItem`, an existing key and accurate secondary field
values on `deleteItem`, a registered name on `rebuild` — completes and
leaves every index consistent with the master list: one-to-one indexes
map `R[F]` to `R`, one-to-many buckets hold exactly one entry with
`R`'s primary key. -/
theorem c1_index_consistency (s : Store) (op : Op) (hInv : Inv s)
    (hok : OpOk s op) :
    ∃ s2, applyOp s op = .ok s2 ∧ Inv s2 ∧ Consistent s2 := by
  cases op with
  | addItem r =>
    obtain ⟨s2, hres, hinv2, _⟩ := addItem_inv s r hInv hok
    exact ⟨s2, hres, hinv2, inv_consistent s2 hinv2⟩
  | updateItem r =>
    obtain ⟨old, hold⟩ := Option.isSome_iff_exists.mp hok
    obtain ⟨s2, l1, l2, hres, hinv2, _⟩ := updateItem_inv s r hInv old hold
    exact ⟨s2, hres, hinv2, inv_consistent s2 hinv2⟩
  | deleteItem r =>
    obtain ⟨hsome, hacc⟩ := hok
    obtain ⟨old, hold⟩ := Option.isSome_iff_exists.mp hsome
    have hacc2 : ∀ spec ∈ s.indexSpecs.tail,
        getField r spec.indexField = getField old spec.indexField := by
      intro spec hmem
      have h := hacc spec hmem
      rw [hold] at h
      simpa using h
    obtain ⟨s2, l1, l2, hres, hinv2, _⟩ :=
      deleteItem_inv s r hInv old hold hacc2
    exact ⟨s2, hres, hinv2, inv_consistent s2 hinv2⟩
  | rebuild name =>
    obtain ⟨pos, hname⟩ := Option.isSome_iff_exists.mp hok
    obtain ⟨s2, hres, hinv2, _⟩ := rebuildByName_inv s name hInv pos hname
    exact ⟨s2, hres, hinv2, inv_consistent s2 hinv2⟩
  | rebuildAll =>
    obtain ⟨s2, hres, hinv2, _⟩ := rebuildAll_inv s hInv
    exact ⟨s2, hres, hinv2, inv_consistent s2 hinv2⟩

/-- C1, witnessed on the scenario store with a fresh-key `addItem`. -/
theorem c1_index_consistency_witness :
    Inv storeABC ∧ OpOk storeABC (Op.addItem recNew4) ∧
    ∃ s2, applyOp storeABC (Op.addItem recNew4) = .ok s2 ∧ Inv s2 ∧
      Consistent s2 :=
  ⟨by decide, by decide,
    c1_index_consistency storeABC (Op.addItem recNew4) (by decide) (by decide)⟩

/-- C1 as frozen is false of the code: `addItem` performs no uniqueness
check, so adding a second record with key 1 completes (returns the
mutated store, no throw) yet the primary index no longer maps record
1's key to it. -/
theorem c1_index_consistency_cex :
    ∃ s2, applyOp storeABC (Op.addItem recDup1) = .ok s2 ∧ ¬ Consistent s2 :=
  ⟨afterCall (applyOp storeABC (Op.addItem recDup1)), by decide, by decide⟩

/-- C2 (amended): `deleteItem` under its call discipline completes and
preserves the absence of empty buckets (an emptied one-to-many bucket
is removed from the index object). -/
theorem c2_emptied_bucket_removed_on_delete (s : Store) (r : Rec)
    (hInv : Inv s) (old : Rec)
    (hold : alookup (idIndexContent s) (getField r "id") = some old)
    (hacc : ∀ spec ∈ s.indexSpecs.tail,
      getField r spec.indexField = getField old spec.indexField) :
    ∃ s2, deleteItem s r = .ok s2 ∧
      (NoEmptyBuckets s → NoEmptyBuckets s2) := by
  obtain ⟨s2, l1, l2, hres, _, _, _, _, _, _, hneb⟩ :=
    deleteItem_inv s r hInv old hold hacc
  exact ⟨s2, hres, hneb⟩

/-- C2, witnessed on the scenario store: deleting record 1 keeps every
bucket non-empty. -/
theorem c2_emptied_bucket_removed_on_delete_witness :
    ∃ s2, deleteItem storeABC recFoo1 = .ok s2 ∧
      (NoEmptyBuckets storeABC → NoEmptyBuckets s2) :=
  c2_emptied_bucket_removed_on_delete storeABC recFoo1 (by decide) recFoo1
    (by decide) (fun _ _ => rfl)

/-- C2 as frozen is false of the code: `updateItem` moving record 3 out
of the `foo` bucket (spec scenario B) completes but leaves
`byType.foo = []` — an entry with zero current records. -/
theorem c2_emptied_bucket_removed_on_delete_cex :
    updateItem storeAfterDel recNew3 = .ok storeFooEmpty ∧
    ¬ NoEmptyBuckets storeFooEmpty ∧
    alookup (manyOf ((storeFooEmpty.indexSpecs.getD 1
      ⟨none, "", 0, .one []⟩).index)) (.str "foo") = some [] :=
  ⟨by decide, by decide, by decide⟩

/-- C3 (code bug): the bucket-removal step of `deleteOneToMany` is
keyed by the incoming argument's field value
(`delete index[item[indexField]]`), not by the primary index's
still-unmodified entry.  Deleting record 3 with a stale `type` leaves
the emptied `foo` bucket in place (`some []`), while the same call with
the accurate record removes it (`none`) — the outcome depends on the
argument's secondary field value. -/
theorem c3_delete_keys_bucket_by_argument :
    (∃ s2, deleteItem storeAfterDel recStale3 = .ok s2 ∧
      (s2.indexSpecs[1]?).map
        (fun sp => alookup (manyOf sp.index) (.str "foo")) =
        some (some [])) ∧
    (∃ s3, deleteItem storeAfterDel recFoo3 = .ok s3 ∧
      (s3.indexSpecs[1]?).map
        (fun sp => alookup (manyOf sp.index) (.str "foo")) = some none) :=
  ⟨⟨afterCall (deleteItem storeAfterDel recStale3), by decide, by decide⟩,
    ⟨afterCall (deleteItem storeAfterDel recFoo3), by decide, by decide⟩⟩

/-- C4 (amended): on an invariant-holding store (key field `id`, every
secondary index one-to-many), a failing `updateItem` or `deleteItem`
returns the store unchanged, and `addItem` never fails. -/
theorem c4_failed_calls_leave_state (s : Store) (r : Rec) (hInv : Inv s) :
    (∀ e s2, updateItem s r = .error (e, s2) → s2 = s) ∧
    (∀ e s2, deleteItem s r = .error (e, s2) → s2 = s) ∧
    (∀ e s2, addItem s r ≠ .error (e, s2)) := by
  refine ⟨fun e s2 h => updateItem_err s r hInv e s2 h,
    fun e s2 h => deleteItem_err s r hInv e s2 h, ?_⟩
  intro e s2 hcontra
  obtain ⟨s3, hok, _⟩ := addItem_any s r hInv
  rw [hok] at hcontra
  cases hcontra

/-- C4, witnessed on the scenario store. -/
theorem c4_failed_calls_leave_state_witness :
    (∀ e s2, updateItem storeABC recStale3 = .error (e, s2) →
      s2 = storeABC) ∧
    (∀ e s2, deleteItem storeABC recStale3 = .error (e, s2) →
      s2 = storeABC) ∧
    (∀ e s2, addItem storeABC recStale3 ≠ .error (e, s2)) :=
  c4_failed_calls_leave_state storeABC recStale3 (by decide)

/-- C4 as frozen is false of the code: with a secondary one-to-one
index on `flavor`, `deleteItem` first splices the record out of the
master list and only then throws (the routing reads
`idIndex[item.flavor]`, which is `undefined`), so the failed call
leaves the master list emptied. -/
theorem c4_failed_calls_leave_state_cex :
    ∃ e s2, deleteItem storeFlavor [("id", .num 1), ("flavor", .str "x")] =
      .error (e, s2) ∧ s2.items = [] ∧ storeFlavor.items ≠ [] :=
  ⟨"There was a problem deleting item.",
    afterCall (deleteItem storeFlavor [("id", .num 1), ("flavor", .str "x")]),
    by decide, by decide, by decide⟩

/-- C5 (code bug): `updateItem` hard-codes `i.id === item.id` when
locating the master-list slot, while the existence check uses the
configured key field.  With `keyField : "name"` every record's `id` is
`undefined`, so the replacement for record `"b"` is spliced over slot 0
(record `"a"`), not over record `"b"`'s slot. -/
theorem c5_update_slot_by_hardcoded_id :
    storeNames.items[0]? = some [("name", .str "a")] ∧
    ∃ s2, updateItem storeNames recNameB = .ok s2 ∧
      s2.items = [recNameB, [("name", .str "b")]] :=
  ⟨by decide, afterCall (updateItem storeNames recNameB), by decide, by decide⟩

/-- C6 (amended): the duplicate-key rejection lives in the
`ItemManager` facade, not in `addItem` — `ItemManager.add` on data
whose key is already present throws "existing key; try update" before
calling `addItem`, leaving the facade (and the wrapped store)
unchanged. -/
theorem c6_duplicate_add_rejected_by_facade (im : ItemMgr) (data : Rec)
    (hkf : im.keyField = "id")
    (hkey : getField data "id" ≠ .undef)
    (hdup : im.has (getField data "id") = true) :
    ItemMgr.add im data =
      .error ("Cannot add item with existing key; try update.", im) := by
  unfold ItemMgr.add
  rw [hkf]
  rw [if_neg hkey]
  simp only [bne_self_eq_false, Bool.false_and, Bool.false_eq_true, if_false]
  rw [if_neg hkey]
  rw [if_pos hdup]

/-- C6, witnessed: re-adding key 1 on the scenario facade is rejected
with the facade unchanged. -/
theorem c6_duplicate_add_rejected_by_facade_witness :
    ItemMgr.add imABC recDup1 =
      .error ("Cannot add item with existing key; try update.", imABC) :=
  c6_duplicate_add_rejected_by_facade imABC recDup1 rfl (by decide) (by decide)

/-- C6 as frozen is false of the core store: `addItem` itself performs
no uniqueness check — adding a second record with key 1 completes and
appends it to the master list. -/
theorem c6_duplicate_add_rejected_by_facade_cex :
    ∃ s2, addItem storeABC recDupB = .ok s2 ∧
      s2.items = storeABC.items ++ [recDupB] :=
  ⟨afterCall (addItem storeABC recDupB), by decide, by decide⟩

/-- C7 (amended): a `getByIndex` on a one-to-many index with a key
absent from the index object returns `[]` without `required` and
throws the not-found error with it.  (The `required` check tests
`value === undefined`, so it is the key's absence from the index
object — not the absence of current records — that triggers it.) -/
theorem c7_one_to_many_missing_key (s : Store) (indexName : String)
    (key : Val) (pos : Nat) (spec : IndexSpec) (m : List (Val × List Rec))
    (hname : alookup s.specIndex indexName = some pos)
    (hspec : s.indexSpecs[pos]? = some spec)
    (hrel : spec.relationship = ONE_TO_MANY)
    (hidx : spec.index = .many m)
    (hmiss : alookup m key = none) :
    getByIndex s indexName key false = .ok (.list []) ∧
    getByIndex s indexName key true = .error "Did not find key in index." := by
  constructor
  · unfold getByIndex
    simp only [hname, hspec, hidx, hmiss]
    rw [if_neg (show ¬(false = true) by decide),
      if_neg (show ¬spec.relationship = ONE_TO_ONE by rw [hrel]; decide)]
  · unfold getByIndex
    simp only [hname, hspec, hidx, hmiss]
    rw [if_pos trivial]

/-- C7, witnessed on the scenario store with the unknown key "qux". -/
theorem c7_one_to_many_missing_key_witness :
    getByIndex storeABC "byType" (.str "qux") false = .ok (.list []) ∧
    getByIndex storeABC "byType" (.str "qux") true =
      .error "Did not find key in index." :=
  c7_one_to_many_missing_key storeABC "byType" (.str "qux") 1
    ⟨some "byType", "type", ONE_TO_MANY,
      .many [(.str "foo", [recFoo1, recFoo3]), (.str "bar", [recBar2])]⟩
    [(.str "foo", [recFoo1, recFoo3]), (.str "bar", [recBar2])]
    (by decide) (by decide) (by decide) rfl (by decide)

/-- C7 as frozen is false of the code for keys with zero current
records: after scenario B the `foo` bucket exists but is empty, and
`getByIndex` with `required` returns `[]` instead of throwing. -/
theorem c7_one_to_many_missing_key_cex :
    storeFooEmpty.items.filter (fun r => getField r "type" == .str "foo")
      = [] ∧
    getByIndex storeFooEmpty "byType" (.str "foo") true = .ok (.list []) :=
  ⟨by decide, by decide⟩

/-- C8: in the default cloning mode every object returned by `getItem`,
`getItems` or `getByIndex` is a fresh heap address, so overwriting it
afterwards changes no observable lookup (primary-key lookups, the
master list, and index lookups all read the same values as before). -/
theorem c8_copy_safety (g : GStore) (hwf : GWF g) :
    (∀ id a1 g1, getItemG g id = (some a1, g1) → ∀ v,
      (∀ id2, gObsId (gHeapSet g1 a1 v) id2 = gObsId g id2) ∧
      gObsItems (gHeapSet g1 a1 v) = gObsItems g ∧
      (∀ nm k, gObsByIndex (gHeapSet g1 a1 v) nm k = gObsByIndex g nm k)) ∧
    (∀ as g1, getItemsG g = (as, g1) → ∀ a1 ∈ as, ∀ v,
      (∀ id2, gObsId (gHeapSet g1 a1 v) id2 = gObsId g id2) ∧
      gObsItems (gHeapSet g1 a1 v) = gObsItems g ∧
      (∀ nm k, gObsByIndex (gHeapSet g1 a1 v) nm k = gObsByIndex g nm k)) ∧
    (∀ nm k res g1, getByIndexG g nm k = some (res, g1) →
      ∀ a1 ∈ gbiAddrs res, ∀ v,
      (∀ id2, gObsId (gHeapSet g1 a1 v) id2 = gObsId g id2) ∧
      gObsItems (gHeapSet g1 a1 v) = gObsItems g ∧
      (∀ nm2 k2, gObsByIndex (gHeapSet g1 a1 v) nm2 k2 =
        gObsByIndex g nm2 k2)) := by
  refine ⟨?_, ?_, ?_⟩
  · intro id a1 g1 h v
    obtain ⟨ha1, t, hg1⟩ := getItemG_char g id a1 g1 h
    subst hg1
    exact ⟨fun id2 => gObsId_set_fresh g hwf t a1 ha1 v id2,
      gObsItems_set_fresh g hwf t a1 ha1 v,
      fun nm k => gObsByIndex_set_fresh g hwf t a1 ha1 v nm k⟩
  · intro as g1 h a1 hmem v
    obtain ⟨hb, t, hg1⟩ := getItemsG_char g as g1 h
    subst hg1
    exact ⟨fun id2 => gObsId_set_fresh g hwf t a1 (hb a1 hmem) v id2,
      gObsItems_set_fresh g hwf t a1 (hb a1 hmem) v,
      fun nm k => gObsByIndex_set_fresh g hwf t a1 (hb a1 hmem) v nm k⟩
  · intro nm k res g1 h a1 hmem v
    obtain ⟨hb, t, hg1⟩ := getByIndexG_char g nm k res g1 h
    subst hg1
    exact ⟨fun id2 => gObsId_set_fresh g hwf t a1 (hb a1 hmem) v id2,
      gObsItems_set_fresh g hwf t a1 (hb a1 hmem) v,
      fun nm2 k2 => gObsByIndex_set_fresh g hwf t a1 (hb a1 hmem) v nm2 k2⟩

/-- C8, witnessed on the concrete two-record reference store. -/
theorem c8_copy_safety_witness :
    (∀ id a1 g1, getItemG gEx id = (some a1, g1) → ∀ v,
      (∀ id2, gObsId (gHeapSet g1 a1 v) id2 = gObsId gEx id2) ∧
      gObsItems (gHeapSet g1 a1 v) = gObsItems gEx ∧
      (∀ nm k, gObsByIndex (gHeapSet g1 a1 v) nm k = gObsByIndex gEx nm k)) ∧
    (∀ as g1, getItemsG gEx = (as, g1) → ∀ a1 ∈ as, ∀ v,
      (∀ id2, gObsId (gHeapSet g1 a1 v) id2 = gObsId gEx id2) ∧
      gObsItems (gHeapSet g1 a1 v) = gObsItems gEx ∧
      (∀ nm k, gObsByIndex (gHeapSet g1 a1 v) nm k = gObsByIndex gEx nm k)) ∧
    (∀ nm k res g1, getByIndexG gEx nm k = some (res, g1) →
      ∀ a1 ∈ gbiAddrs res, ∀ v,
      (∀ id2, gObsId (gHeapSet g1 a1 v) id2 = gObsId gEx id2) ∧
      gObsItems (gHeapSet g1 a1 v) = gObsItems gEx ∧
      (∀ nm2 k2, gObsByIndex (gHeapSet g1 a1 v) nm2 k2 =
        gObsByIndex gEx nm2 k2)) :=
  c8_copy_safety gEx (by decide)

/-- C9: the index-object identity registered by `addIndex` survives
every subsequent operation — each mutation updates index objects in
place and never replaces them — so `getIndex(name)` still returns the
handle `addIndex` returned, after any operation sequence. -/
theorem c9_index_handle_stable (rs : RStore) (hwf : RWF rs) (nm f : String)
    (rel : Nat) (ops : List ROp) :
    rgetIndexId (rRun (raddIndex rs (some nm) f rel).1 ops) nm =
      some (raddIndex rs (some nm) f rel).2 := by
  have h1 := rRun_frame ops (raddIndex rs (some nm) f rel).1
  unfold rgetIndexId
  rw [h1.1]
  have hsi : (raddIndex rs (some nm) f rel).1.base.specIndex =
      aset rs.base.specIndex nm rs.base.indexSpecs.length :=
    addIndex_specIndex rs.base nm f rel
  rw [hsi, alookup_aset_self]
  show (rRun (raddIndex rs (some nm) f rel).1 ops).idxIds[
    rs.base.indexSpecs.length]? = some rs.nextId
  rw [h1.2]
  show (rs.idxIds ++ [rs.nextId])[rs.base.indexSpecs.length]? =
    some rs.nextId
  rw [← hwf.1]
  exact List.getElem?_concat_length rs.idxIds rs.nextId

/-- C9, witnessed: the `byType` handle (identity 2) survives an
`addItem` and a `truncate`. -/
theorem c9_index_handle_stable_witness :
    rgetIndexId (rRun (raddIndex (rconstruct [recFoo1] "id") (some "byType")
      "type" ONE_TO_MANY).1 [ROp.addItem recBar2, ROp.truncate]) "byType" =
      some (raddIndex (rconstruct [recFoo1] "id") (some "byType")
        "type" ONE_TO_MANY).2 :=
  c9_index_handle_stable (rconstruct [recFoo1] "id") (by decide) "byType"
    "type" ONE_TO_MANY [ROp.addItem recBar2, ROp.truncate]

/-- C10: `truncate()` executes `this.#items = []` — the store's master
array after `truncate` is a fresh identity, the previous array keeps
its contents, the fresh array is empty, and the value-level master list
is emptied. -/
theorem c10_truncate_installs_fresh_array (rs : RStore) (hwf : RWF rs) :
    (rApply rs ROp.truncate).itemsId ≠ rs.itemsId ∧
    alookup (rApply rs ROp.truncate).arrHeap rs.itemsId =
      alookup rs.arrHeap rs.itemsId ∧
    alookup (rApply rs ROp.truncate).arrHeap
      (rApply rs ROp.truncate).itemsId = some [] ∧
    (rApply rs ROp.truncate).base.items = [] := by
  have hne : rs.itemsId ≠ rs.nextId := Nat.ne_of_lt hwf.2.1
  refine ⟨?_, ?_, ?_, ?_⟩
  · show rs.nextId ≠ rs.itemsId
    exact hne.symm
  · show alookup (aset rs.arrHeap rs.nextId []) rs.itemsId =
      alookup rs.arrHeap rs.itemsId
    exact alookup_aset_ne rs.arrHeap rs.nextId rs.itemsId [] hne
  · show alookup (aset rs.arrHeap rs.nextId []) rs.nextId = some []
    exact alookup_aset_self rs.arrHeap rs.nextId []
  · show (afterCall (truncate rs.base)).items = []
    unfold truncate
    rw [rebuildAll_items]

/-- C10, witnessed on a two-record reference store. -/
theorem c10_truncate_installs_fresh_array_witness :
    (rApply rsTrunc ROp.truncate).itemsId ≠ rsTrunc.itemsId ∧
    alookup (rApply rsTrunc ROp.truncate).arrHeap rsTrunc.itemsId =
      alookup rsTrunc.arrHeap rsTrunc.itemsId ∧
    alookup (rApply rsTrunc ROp.truncate).arrHeap
      (rApply rsTrunc ROp.truncate).itemsId = some [] ∧
    (rApply rsTrunc ROp.truncate).base.items = [] :=
  c10_truncate_installs_fresh_array rsTrunc (by decide)

end ResourceModel
